import Mathlib

/-!
# mpl::Comm — a shallow embedding of `src/mpl/comm.cpp`

The connection manager is a single-threaded state machine driven by its owner.
Every member function of `mpl::Comm` becomes a function on `Sys`, the pair of
the object's fields (`Comm`) and the chronological trace of the calls it made
on its collaborators (`Event`).  The operating system and the packet codec are
an explicit environment `Env`; the answer of a system call may depend on the
moment it is made (the length of the trace so far) and on its arguments.

Loops that the C++ code does not bound (`tryConnect`, the reassembly loop of
`process`, the flush loop of `sendDone`) carry a fuel argument; running out of
fuel is reported as `Outcome.outOfFuel` and never mistaken for a return.
-/

namespace mpl

/-! ## Platform constants (from the system headers, Linux values) -/

abbrev Byte := Nat

def EINTR : Nat := 4
def EAGAIN : Nat := 11
def EINPROGRESS : Nat := 115

def POLLOUT : Nat := 4
def POLLERR : Nat := 8
def POLLHUP : Nat := 16

/-! ## Data model -/

/-- The connection state `state_`. -/
inductive State
  | DISCONNECTED
  | CONNECTING
  | CONNECTED
  deriving DecidableEq, Repr

/-- One node of the list returned by `getaddrinfo` (the fields `tryConnect` reads). -/
structure AddrInfo where
  ai_family : Nat
  ai_socktype : Nat
  ai_protocol : Nat
  ai_addr : Nat
  deriving DecidableEq, Repr

/-- A list allocated by one successful `getaddrinfo` call; `id` tells allocations apart. -/
structure AddrList where
  id : Nat
  nodes : List AddrInfo
  deriving DecidableEq, Repr

/-- A non-null `struct addrinfo*`: the allocation it points into and the node index. -/
structure NodePtr where
  list : Nat
  idx : Nat
  deriving DecidableEq, Repr

/-- The packets the codec can decode; only the two control packets carry meaning here. -/
inductive Packet
  | Hello (problemId : Nat)
  | Done (problemId : Nat)
  | other (tag : Nat)
  deriving DecidableEq, Repr

/-- Modelled from the spec: the ReadBuffer (`mpl/buffer.hpp` is not among the sources).
A fixed block of memory with a position and a limit; in append mode the bytes
`[0, position)` are the ones held, after `flip` the readable view is `[position, limit)`. -/
structure Buffer where
  mem : List Byte
  position : Nat
  limit : Nat
  deriving DecidableEq, Repr

namespace Buffer

/-- Modelled from the spec: `remaining()`, the room between position and limit. -/
def remaining (b : Buffer) : Nat := b.limit - b.position

/-- Modelled from the spec: the bytes `recv` stores at `begin()`. -/
def store (b : Buffer) (bs : List Byte) : Buffer :=
  { b with mem := b.mem.take b.position ++ bs ++ b.mem.drop (b.position + bs.length) }

/-- Modelled from the spec: `operator+=`, moves the tail past `n` freshly stored bytes. -/
def advance (b : Buffer) (n : Nat) : Buffer := { b with position := b.position + n }

/-- Modelled from the spec: `flip()`, exposes every byte appended so far as the readable view. -/
def flip (b : Buffer) : Buffer := { b with position := 0, limit := b.position }

/-- The bytes of the readable view. -/
def unconsumed (b : Buffer) : List Byte := (b.mem.take b.limit).drop b.position

/-- Modelled from the spec: `compact(needed)`, moves the unconsumed bytes to the start,
grows the block when it cannot hold `needed` more bytes, and returns to append mode. -/
def compact (b : Buffer) (needed : Nat) : Buffer :=
  let rest := b.unconsumed
  let cap := max b.mem.length (rest.length + needed)
  { mem := rest ++ List.replicate (cap - rest.length) 0
    position := rest.length
    limit := cap }

end Buffer

/-- Modelled from the spec: the WriteQueue (`mpl/write_queue.hpp` is not among the sources).
The encoded packets not yet fully sent, oldest first; a partly sent head keeps only the
bytes that remain. -/
structure WriteQueue where
  buffers : List (List Byte)
  deriving DecidableEq, Repr

namespace WriteQueue

/-- All queued bytes in the order they will reach the socket. -/
def bytes (q : WriteQueue) : List Byte := q.buffers.foldr (fun b acc => b ++ acc) []

/-- Modelled from the spec: `empty()`, true iff no bytes remain queued. -/
def empty (q : WriteQueue) : Bool := q.bytes.isEmpty

/-- Modelled from the spec: `push_back`, enqueues an encoded packet at the tail. -/
def push_back (q : WriteQueue) (b : List Byte) : WriteQueue := { buffers := q.buffers ++ [b] }

/-- Removes the first `k` queued bytes: fully sent packets are dequeued, a partly sent
packet keeps its remainder. -/
def dropBytes : Nat → List (List Byte) → List (List Byte)
  | _, [] => []
  | k, b :: bs => if b.length ≤ k then dropBytes (k - b.length) bs else b.drop k :: bs

end WriteQueue

/-- The fields of `mpl::Comm`. -/
structure Comm where
  state_ : State
  socket_ : Int
  addrInfo_ : Option AddrList
  connectAddr_ : Option NodePtr
  rBuf_ : Buffer
  writeQueue_ : WriteQueue
  problemId_ : Nat
  done_ : Bool
  deriving DecidableEq, Repr

/-- The calls the manager makes on the operating system, the write queue, the read
buffer and the codec, plus its writes to `state_`. -/
inductive Event
  | freeaddrinfo (list : Nat)
  | getaddrinfo (host : Nat) (port : Int)
  | socket (a : AddrInfo)
  | ioctl (fd : Int) (nonBlocking : Nat)
  | connect (fd : Int) (a : AddrInfo)
  | close (fd : Int)
  | poll (fd : Int)
  | recv (fd : Int) (len : Nat)
  | writeTo (fd : Int) (sent : List Byte)
  | push_back (p : Packet)
  | setState (st : State)
  | advance (n : Nat)
  | flip
  | parse
  | dispatch (p : Packet)
  | compact (needed : Nat)
  deriving DecidableEq, Repr

/-- The manager together with the trace of what it has done so far. -/
structure Sys where
  comm : Comm
  log : List Event
  deriving DecidableEq, Repr

/-- A system call's return value and the `errno` it leaves. -/
structure SysRet where
  ret : Int
  errno : Nat
  deriving DecidableEq, Repr

/-- What `getaddrinfo` reports: a non-zero error code, or the resolved list. -/
structure ResolveRet where
  err : Int
  res : List AddrInfo
  deriving DecidableEq, Repr

/-- What `poll` reports for the single descriptor. -/
structure PollRet where
  ret : Int
  revents : Nat
  deriving DecidableEq, Repr

/-- What `recv` reports: a negative return with `errno`, or the bytes the peer has
made available (none of them at end of stream). -/
inductive RecvRet
  | error (errno : Nat)
  | data (bs : List Byte)
  deriving DecidableEq, Repr

/-- What one `packet::parse` call does: the packets it hands to the callback, the count
it returns, and the buffer with the decoded bytes consumed. -/
structure ParseResult where
  packets : List Packet
  needed : Nat
  buf : Buffer
  deriving DecidableEq, Repr

/-- The collaborators of the manager.  The first argument of a system call is the
moment of the call (the number of events before it).  `socket` returns the descriptor or
-1; `recv` is asked for at most `len` bytes and the manager sees only the first `len` of
the bytes reported; `send` is the number of bytes the socket accepts out of those offered
by one flush; `encode` and `parse` are the packet codec. -/
structure Env where
  getaddrinfo : Nat → Nat → Int → ResolveRet
  socket : Nat → AddrInfo → Int
  connect : Nat → Int → AddrInfo → SysRet
  poll : Nat → Int → PollRet
  recv : Nat → Int → Nat → RecvRet
  send : Nat → Int → Nat → Nat
  encode : Packet → List Byte
  parse : Buffer → ParseResult

/-- The exceptions `comm.cpp` throws. -/
inductive Exn
  | invalid_argument (err : Int)
  | system_error (errno : Nat)
  deriving DecidableEq, Repr

/-- How a member function ends. -/
inductive Outcome
  | returned (s : Sys)
  | threw (e : Exn) (s : Sys)
  | undefinedBehaviour (s : Sys)
  | outOfFuel (s : Sys)
  deriving DecidableEq, Repr

/-! ## Small helpers -/

/-- The moment of the next call: the number of events so far. -/
def Sys.tick (s : Sys) : Nat := s.log.length

/-- Records an event at the end of the trace. -/
def emit (e : Event) (s : Sys) : Sys := { s with log := s.log ++ [e] }

/-- The assignment `state_ = st`. -/
def setState (st : State) (s : Sys) : Sys :=
  emit (.setState st) { s with comm := { s.comm with state_ := st } }

/-- The node `connectAddr_` points to, when the pointer is neither null nor dangling. -/
def deref (c : Comm) : Option AddrInfo :=
  match c.connectAddr_, c.addrInfo_ with
  | some p, some l => if p.list = l.id then l.nodes[p.idx]? else none
  | _, _ => none

/-- The value of `connectAddr_->ai_next`; `none` when the read is not defined. -/
def aiNext (c : Comm) : Option (Option NodePtr) :=
  match c.connectAddr_, c.addrInfo_ with
  | some p, some l =>
    if p.list = l.id ∧ p.idx < l.nodes.length then
      some (if p.idx + 1 < l.nodes.length then some ⟨p.list, p.idx + 1⟩ else none)
    else none
  | _, _ => none

/-- Modelled from the spec: `WriteQueue::push_back` of a packet, which encodes it and
enqueues the bytes at the tail. -/
def pushBack (env : Env) (p : Packet) (s : Sys) : Sys :=
  emit (.push_back p)
    { s with comm := { s.comm with writeQueue_ := s.comm.writeQueue_.push_back (env.encode p) } }

/-- Modelled from the spec: `WriteQueue::writeTo`, one write of as many head-of-queue
bytes as the socket accepts. -/
def writeTo (env : Env) (s : Sys) : Sys :=
  let offered := s.comm.writeQueue_.bytes.length
  let k := min (env.send s.tick s.comm.socket_ offered) offered
  emit (.writeTo s.comm.socket_ (s.comm.writeQueue_.bytes.take k))
    { s with comm := { s.comm with
        writeQueue_ := { buffers := WriteQueue.dropBytes k s.comm.writeQueue_.buffers } } }

/-! ## The member functions -/

/-- Member function `Comm::close`. -/
def close (s : Sys) : Sys :=
  emit (.close s.comm.socket_) { s with comm := { s.comm with socket_ := -1 } }

/-- Member function `Comm::connected`. -/
def connected (env : Env) (s : Sys) : Sys :=
  pushBack env (.Hello s.comm.problemId_) (setState .CONNECTED s)

/-- The `while (connectAddr_ != nullptr)` loop of `Comm::tryConnect`. -/
def tryConnectLoop (env : Env) : Nat → Sys → Outcome
  | 0, s =>
    match s.comm.connectAddr_ with
    | none => .returned (setState .DISCONNECTED s)
    | some _ => .outOfFuel s
  | fuel + 1, s =>
    match s.comm.connectAddr_ with
    | none => .returned (setState .DISCONNECTED s)
    | some _ =>
      match deref s.comm with
      | none => .undefinedBehaviour s
      | some a =>
        let fd := env.socket s.tick a
        let s1 := emit (.socket a) { s with comm := { s.comm with socket_ := fd } }
        if fd = -1 then tryConnectLoop env fuel s1
        else
          let s2 := emit (.ioctl fd 1) s1
          let r := env.connect s2.tick fd a
          let s3 := emit (.connect fd a) s2
          if r.ret = 0 then .returned (connected env s3)
          else if r.errno = EINPROGRESS then .returned (setState .CONNECTING s3)
          else tryConnectLoop env fuel (close s3)

/-- Member function `Comm::tryConnect`. -/
def tryConnect (env : Env) (fuel : Nat) (s : Sys) : Outcome :=
  tryConnectLoop env fuel (if s.comm.socket_ ≠ -1 then close s else s)

/-- The head of `Comm::connect`: `if (addrInfo_) ::freeaddrinfo(std::exchange(addrInfo_, nullptr));` -/
def afterFree (s : Sys) : Sys :=
  match s.comm.addrInfo_ with
  | some l => emit (.freeaddrinfo l.id) { s with comm := { s.comm with addrInfo_ := none } }
  | none => s

/-- What the `getaddrinfo` call of `Comm::connect` reports when `connect` is called in `s`. -/
def resolution (env : Env) (host : Nat) (port : Int) (s : Sys) : ResolveRet :=
  env.getaddrinfo (afterFree s).tick host port

/-- Member function `Comm::connect`.  A failing `getaddrinfo` leaves `addrInfo_` as the
preceding `std::exchange` set it, null. -/
def connect (env : Env) (fuel : Nat) (host : Nat) (port : Int) (s : Sys) : Outcome :=
  let r := resolution env host port s
  let s2 := emit (.getaddrinfo host port) (afterFree s)
  if r.err ≠ 0 then .threw (.invalid_argument r.err) s2
  else
    let head : Option NodePtr := if r.res = [] then none else some ⟨s2.tick, 0⟩
    let held : Option AddrList := if r.res = [] then none else some ⟨s2.tick, r.res⟩
    tryConnect env fuel { s2 with comm := { s2.comm with addrInfo_ := held, connectAddr_ := head } }

/-- Member function `Comm::process(packet::Done&&)`. -/
def processDone (s : Sys) : Sys :=
  { s with comm := { s.comm with done_ := true } }

/-- Modelled from the spec: the overloads of `process` the parse callback chooses from
(`mpl/comm.hpp` is not among the sources).  A `Done` goes to `Comm::process(packet::Done&&)`;
no action is taken on any other packet. -/
def dispatch (p : Packet) (s : Sys) : Sys :=
  match p with
  | .Done _ => processDone (emit (.dispatch p) s)
  | _ => emit (.dispatch p) s

/-- The callback of `packet::parse` run on the packets of one call, in decode order. -/
def dispatchAll (ps : List Packet) (s : Sys) : Sys :=
  ps.foldl (fun acc p => dispatch p acc) s

/-- The reassembly loop of `Comm::process` followed by the `compact` call. -/
def parseLoop (env : Env) : Nat → Sys → Outcome
  | 0, s => .outOfFuel s
  | fuel + 1, s =>
    let r := env.parse s.comm.rBuf_
    let s1 := emit .parse { s with comm := { s.comm with rBuf_ := r.buf } }
    let s2 := dispatchAll r.packets s1
    if r.needed = 0 then parseLoop env fuel s2
    else .returned (emit (.compact r.needed)
      { s2 with comm := { s2.comm with rBuf_ := s2.comm.rBuf_.compact r.needed } })

/-- The guarded flush that opens the `case CONNECTED:` arm:
`if (!writeQueue_.empty()) writeQueue_.writeTo(socket_);` -/
def flushOnce (env : Env) (s : Sys) : Sys :=
  if s.comm.writeQueue_.empty then s else writeTo env s

/-- What the `recv` call of the `case CONNECTED:` arm reports when the arm is entered in `s`. -/
def recvAttempt (env : Env) (s : Sys) : RecvRet :=
  env.recv (flushOnce env s).tick (flushOnce env s).comm.socket_
    (flushOnce env s).comm.rBuf_.remaining

/-- The manager right after the `recv` call of the `case CONNECTED:` arm. -/
def afterRecv (env : Env) (s : Sys) : Sys :=
  emit (.recv (flushOnce env s).comm.socket_ (flushOnce env s).comm.rBuf_.remaining)
    (flushOnce env s)

/-- The bytes `recv` stored at `rBuf_.begin()`, then `rBuf_ += n; rBuf_.flip();`. -/
def appendAndFlip (got : List Byte) (s : Sys) : Sys :=
  let s3 := emit (.advance got.length)
    { s with comm := { s.comm with rBuf_ := (s.comm.rBuf_.store got).advance got.length } }
  emit .flip { s3 with comm := { s3.comm with rBuf_ := s3.comm.rBuf_.flip } }

/-- The `case CONNECTED:` arm of `Comm::process`. -/
def processConnected (env : Env) (fuel : Nat) (s : Sys) : Outcome :=
  match recvAttempt env s with
  | .error errno =>
    if errno = EAGAIN ∨ errno = EINTR then .returned (afterRecv env s)
    else .threw (.system_error errno) (afterRecv env s)
  | .data bs =>
    let got := bs.take (flushOnce env s).comm.rBuf_.remaining
    if got.length = 0 then .returned (setState .DISCONNECTED (close (afterRecv env s)))
    else parseLoop env fuel (appendAndFlip got (afterRecv env s))

/-- Member function `Comm::process()`. -/
def process (env : Env) (fuel : Nat) (s : Sys) : Outcome :=
  match s.comm.state_ with
  | .DISCONNECTED => .returned s
  | .CONNECTING =>
    let r := env.poll s.tick s.comm.socket_
    let s1 := emit (.poll s.comm.socket_) s
    if r.ret = -1 then .returned s1
    else if r.revents &&& (POLLHUP ||| POLLERR) ≠ 0 then
      match aiNext s1.comm with
      | none => .undefinedBehaviour s1
      | some nxt => tryConnect env fuel { s1 with comm := { s1.comm with connectAddr_ := nxt } }
    else if r.revents &&& POLLOUT = 0 then .returned s1
    else processConnected env fuel (connected env s1)
  | .CONNECTED => processConnected env fuel s

/-- The `while (!writeQueue_.empty())` loop of `Comm::sendDone`. -/
def flushLoop (env : Env) : Nat → Sys → Outcome
  | 0, s => if s.comm.writeQueue_.empty then .returned s else .outOfFuel s
  | fuel + 1, s =>
    if s.comm.writeQueue_.empty then .returned s else flushLoop env fuel (writeTo env s)

/-- Member function `Comm::sendDone`. -/
def sendDone (env : Env) (fuel : Nat) (s : Sys) : Outcome :=
  flushLoop env fuel (pushBack env (.Done s.comm.problemId_) (emit (.ioctl s.comm.socket_ 0) s))


/-! ## Sequences of calls by the owner -/

/-- The public operations the owner can invoke. -/
inductive Op
  | connect (host : Nat) (port : Int)
  | process
  | sendDone
  | close
  deriving DecidableEq, Repr

/-- One call by the owner. -/
def step (env : Env) (fuel : Nat) : Op → Sys → Outcome
  | .connect host port, s => connect env fuel host port s
  | .process, s => process env fuel s
  | .sendDone, s => sendDone env fuel s
  | .close, s => .returned (close s)

/-- The manager as the owner finds it after a call that returned or threw. -/
def Outcome.after : Outcome → Option Sys
  | .returned s => some s
  | .threw _ s => some s
  | .undefinedBehaviour _ => none
  | .outOfFuel _ => none

/-- The manager carried by an outcome, whatever the outcome. -/
def Outcome.sys : Outcome → Sys
  | .returned s => s
  | .threw _ s => s
  | .undefinedBehaviour s => s
  | .outOfFuel s => s

/-- A sequence of calls, each with its own fuel; an exception is caught by the owner,
who carries on with the manager as the throwing call left it. -/
def runOps (env : Env) : List (Nat × Op) → Sys → Option Sys
  | [], s => some s
  | (fuel, op) :: rest, s =>
    match (step env fuel op s).after with
    | none => none
    | some s' => runOps env rest s'

/-- Whether a packet is a `Done`. -/
def Packet.isDone : Packet → Bool
  | .Done _ => true
  | _ => false

/-- The bytes written to descriptor `fd` by the flush attempts of a trace, in order. -/
def sentBytes (fd : Int) : List Event → List Byte
  | [] => []
  | .writeTo fd' bs :: rest => if fd' = fd then bs ++ sentBytes fd rest else sentBytes fd rest
  | _ :: rest => sentBytes fd rest

/-- Whether an event is a flush attempt on the write queue. -/
def Event.isFlush : Event → Bool
  | .writeTo _ _ => true
  | _ => false

/-- Whether an event is a receive attempt on the socket. -/
def Event.isRecv : Event → Bool
  | .recv _ _ => true
  | _ => false

/-- The flush and receive attempts of a trace, in the order they were made. -/
def ioAttempts (l : List Event) : List Event :=
  l.filter (fun e => e.isFlush || e.isRecv)

/-- Whether an event is a write of `CONNECTED` to `state_` or the enqueueing of a `Hello`. -/
def Event.isHelloOrConnected : Event → Bool
  | .setState .CONNECTED => true
  | .push_back (.Hello _) => true
  | _ => false

/-- The transitions into Connected and the `Hello` packets enqueued in a trace, in order. -/
def helloTrace (l : List Event) : List Event :=
  l.filter Event.isHelloOrConnected

/-- The invariant of the Connecting state: the socket is open and `connectAddr_` points
to a node of the address list the manager currently holds. -/
def ConnectingInv (c : Comm) : Prop :=
  c.state_ = .CONNECTING → c.socket_ ≠ -1 ∧ (deref c).isSome = true

instance (c : Comm) : Decidable (ConnectingInv c) := by
  unfold ConnectingInv
  infer_instance

/-- The cursor half of the invariant of the Connecting state: `connectAddr_` points to a
node of the address list the manager currently holds. -/
def CursorInv (c : Comm) : Prop :=
  c.state_ = .CONNECTING → (deref c).isSome = true

/-- A sequence of calls in which `close()` is never issued while the manager is
Connecting. -/
def NoCloseWhileConnecting (env : Env) : List (Nat × Op) → Sys → Prop
  | [], _ => True
  | (fuel, op) :: rest, s =>
    (op = .close → s.comm.state_ ≠ .CONNECTING) ∧
    ∀ s', (step env fuel op s).after = some s' → NoCloseWhileConnecting env rest s'

/-- The manager at the head of the loop of `Comm::tryConnect`, after
`if (socket_ != -1) close();`. -/
def loopEntry (s : Sys) : Sys :=
  if s.comm.socket_ ≠ -1 then close s else s

/-- The manager `Comm::connect` hands to `tryConnect()` once `getaddrinfo` has succeeded:
the fresh list is held and `connectAddr_ = addrInfo_`. -/
def resolved (env : Env) (host : Nat) (port : Int) (s : Sys) : Sys :=
  { comm := { (afterFree s).comm with
      addrInfo_ := if (resolution env host port s).res = [] then none
        else some ⟨(emit (.getaddrinfo host port) (afterFree s)).tick,
          (resolution env host port s).res⟩
      connectAddr_ := if (resolution env host port s).res = [] then none
        else some ⟨(emit (.getaddrinfo host port) (afterFree s)).tick, 0⟩ }
    log := (afterFree s).log ++ [.getaddrinfo host port] }

/-- A call is admissible unless it is a `connect()` whose address resolution fails while
the manager is Connecting. -/
def StepOk (env : Env) (op : Op) (s : Sys) : Prop :=
  match op with
  | .connect host port => s.comm.state_ = .CONNECTING → (resolution env host port s).err = 0
  | _ => True

/-- A sequence of calls all of which are admissible in the state they are made in. -/
def Admissible (env : Env) : List (Nat × Op) → Sys → Prop
  | [], _ => True
  | (fuel, op) :: rest, s =>
    StepOk env op s ∧ ∀ s', (step env fuel op s).after = some s' → Admissible env rest s'

/-! ## Concrete data used by the evaluations below -/

/-- Modelled from the spec: the manager as its constructor leaves it (`mpl/comm.hpp` is not
among the sources): disconnected, no socket, no address list, nothing queued, done flag
false.  The capacity of the read buffer is chosen small for the evaluations. -/
def fresh (problemId : Nat) : Sys :=
  { comm :=
      { state_ := .DISCONNECTED
        socket_ := -1
        addrInfo_ := none
        connectAddr_ := none
        rBuf_ := { mem := List.replicate 8 0, position := 0, limit := 8 }
        writeQueue_ := { buffers := [] }
        problemId_ := problemId
        done_ := false }
    log := [] }

def addrA : AddrInfo := { ai_family := 2, ai_socktype := 1, ai_protocol := 6, ai_addr := 100 }
def addrB : AddrInfo := { ai_family := 2, ai_socktype := 1, ai_protocol := 6, ai_addr := 200 }

/-- A codec for the evaluations: one tag byte and the problem id; `parse` decodes one
packet per call from the readable view and otherwise asks for the missing bytes. -/
def encodeDemo : Packet → List Byte
  | .Hello pid => [1, pid]
  | .Done pid => [2, pid]
  | .other tag => [tag, 0]

def parseDemo (b : Buffer) : ParseResult :=
  match b.unconsumed with
  | 1 :: pid :: _ => { packets := [.Hello pid], needed := 0, buf := { b with position := b.position + 2 } }
  | 2 :: pid :: _ => { packets := [.Done pid], needed := 0, buf := { b with position := b.position + 2 } }
  | t :: _ :: _ => { packets := [.other t], needed := 0, buf := { b with position := b.position + 2 } }
  | [_] => { packets := [], needed := 1, buf := b }
  | [] => { packets := [], needed := 2, buf := b }

/-- An environment in which the resolver returns `[addrA, addrB]`, every socket is
descriptor 3, connecting to `addrA` is refused (ECONNREFUSED) and connecting to `addrB`
succeeds at once. -/
def envRefuseFirst : Env :=
  { getaddrinfo := fun _ _ _ => { err := 0, res := [addrA, addrB] }
    socket := fun _ _ => 3
    connect := fun _ _ a => if a = addrA then { ret := -1, errno := 111 } else { ret := 0, errno := 0 }
    poll := fun _ _ => { ret := 0, revents := 0 }
    recv := fun _ _ _ => .error EAGAIN
    send := fun _ _ n => n
    encode := encodeDemo
    parse := parseDemo }

/-- An environment in which the resolver returns the single candidate `addrA` and
socket creation always fails. -/
def envNoSocket : Env :=
  { getaddrinfo := fun _ _ _ => { err := 0, res := [addrA] }
    socket := fun _ _ => -1
    connect := fun _ _ _ => { ret := 0, errno := 0 }
    poll := fun _ _ => { ret := 0, revents := 0 }
    recv := fun _ _ _ => .error EAGAIN
    send := fun _ _ n => n
    encode := encodeDemo
    parse := parseDemo }

/-- An environment in which the peer has nothing to say: every `recv` would block. -/
def envQuiet : Env :=
  { getaddrinfo := fun _ _ _ => { err := 0, res := [addrA] }
    socket := fun _ _ => 3
    connect := fun _ _ _ => { ret := -1, errno := EINPROGRESS }
    poll := fun _ _ => { ret := 1, revents := POLLOUT }
    recv := fun _ _ _ => .error EAGAIN
    send := fun _ _ n => n
    encode := encodeDemo
    parse := parseDemo }

/-- A manager connected on descriptor 3 with nothing queued. -/
def connectedIdle : Sys :=
  { comm := { (fresh 42).comm with
      state_ := .CONNECTED, socket_ := 3,
      addrInfo_ := some ⟨1, [addrA]⟩, connectAddr_ := some ⟨1, 0⟩ }
    log := [] }

/-- An environment whose peer delivers, in one receive, a complete `Hello` immediately
followed by a complete `Done`. -/
def envHelloDone : Env :=
  { getaddrinfo := fun _ _ _ => { err := 0, res := [addrA] }
    socket := fun _ _ => 3
    connect := fun _ _ _ => { ret := -1, errno := EINPROGRESS }
    poll := fun _ _ => { ret := 1, revents := POLLOUT }
    recv := fun _ _ _ => .data [1, 42, 2, 42]
    send := fun _ _ n => n
    encode := encodeDemo
    parse := parseDemo }

/-- An environment whose socket accepts at most three bytes per write. -/
def envSlowSocket : Env :=
  { getaddrinfo := fun _ _ _ => { err := 0, res := [addrA] }
    socket := fun _ _ => 3
    connect := fun _ _ _ => { ret := 0, errno := 0 }
    poll := fun _ _ => { ret := 1, revents := POLLOUT }
    recv := fun _ _ _ => .error EAGAIN
    send := fun _ _ n => min n 3
    encode := encodeDemo
    parse := parseDemo }

/-- A connected manager with three packets queued. -/
def connectedThreeQueued : Sys :=
  { comm := { connectedIdle.comm with writeQueue_ := { buffers := [[9, 1], [9, 2], [9, 3]] } }
    log := [] }

/-- A manager whose non-blocking connect to `addrA` on descriptor 3 is in progress. -/
def connectingOnA : Sys :=
  { comm := { (fresh 42).comm with
      state_ := .CONNECTING, socket_ := 3,
      addrInfo_ := some ⟨1, [addrA]⟩, connectAddr_ := some ⟨1, 0⟩ }
    log := [] }

/-- An environment in which host 0 resolves to `[addrA]` and every other host fails to
resolve (EAI_NONAME), every connect stays in progress, and the pending connection then
reports POLLHUP. -/
def envResolveOnlyHost0 : Env :=
  { getaddrinfo := fun _ host _ =>
      if host = 0 then { err := 0, res := [addrA] } else { err := -2, res := [] }
    socket := fun _ _ => 3
    connect := fun _ _ _ => { ret := -1, errno := EINPROGRESS }
    poll := fun _ _ => { ret := 1, revents := POLLHUP }
    recv := fun _ _ _ => .error EAGAIN
    send := fun _ _ n => n
    encode := encodeDemo
    parse := parseDemo }

/-- An environment in which the resolver returns `[addrA, addrB]`, every connect stays in
progress and every pending connection then reports POLLHUP. -/
def envAllHangUp : Env :=
  { getaddrinfo := fun _ _ _ => { err := 0, res := [addrA, addrB] }
    socket := fun _ _ => 3
    connect := fun _ _ _ => { ret := -1, errno := EINPROGRESS }
    poll := fun _ _ => { ret := 1, revents := POLLHUP }
    recv := fun _ _ _ => .error EAGAIN
    send := fun _ _ n => n
    encode := encodeDemo
    parse := parseDemo }

/-- An environment whose socket accepts nothing on the first flush of a call sequence
(the write at moment 2 stalls) and everything afterwards. -/
def envStallOnce : Env :=
  { getaddrinfo := fun _ _ _ => { err := 0, res := [addrA] }
    socket := fun _ _ => 3
    connect := fun _ _ _ => { ret := 0, errno := 0 }
    poll := fun _ _ => { ret := 1, revents := POLLOUT }
    recv := fun _ _ _ => .error EAGAIN
    send := fun t _ n => if t = 2 then 0 else n
    encode := encodeDemo
    parse := parseDemo }

/-- The trace of `n` refused attempts on `addrA` with descriptor 3. -/
def refusedTrace : Nat → List Event
  | 0 => []
  | n + 1 => [.socket addrA, .ioctl 3 1, .connect 3 addrA, .close 3] ++ refusedTrace n

/-! ## Predicates on stretches of execution -/

/-- The done flag across a stretch of execution: it is never cleared, and it is set only
if a decoded `Done` was dispatched in that stretch. -/
def DoneStep (s s' : Sys) : Prop :=
  ∃ new, s'.log = s.log ++ new ∧
    (s.comm.done_ = true → s'.comm.done_ = true) ∧
    (s.comm.done_ = false → s'.comm.done_ = true →
      ∃ pid, Event.dispatch (.Done pid) ∈ new)

/-- A stretch of execution that only extends the trace and keeps the done flag. -/
def Quiet (s s' : Sys) : Prop :=
  s.log <+: s'.log ∧ s'.comm.done_ = s.comm.done_

/-- A stretch of execution with no transition into Connected and no `Hello` enqueued. -/
def NoHello (s s' : Sys) : Prop :=
  ∃ new, s'.log = s.log ++ new ∧ helloTrace new = []

/-- A stretch of execution with either no transition into Connected and no `Hello`, or
exactly one transition immediately followed by exactly one `Hello` carrying `pid`. -/
def HelloStep (pid : Nat) (s s' : Sys) : Prop :=
  ∃ new, s'.log = s.log ++ new ∧
    (helloTrace new = [] ∨
      helloTrace new = [.setState .CONNECTED, .push_back (.Hello pid)])

/-! ## Lemmas and theorems -/

theorem tryConnectLoop_refuseFirst (fuel : Nat) (s : Sys)
    (hc : s.comm.connectAddr_ = some ⟨1, 0⟩)
    (hl : s.comm.addrInfo_ = some ⟨1, [addrA, addrB]⟩) :
    ∃ s', tryConnectLoop envRefuseFirst fuel s = .outOfFuel s' ∧
      s'.comm.connectAddr_ = some ⟨1, 0⟩ ∧ s'.comm.state_ = s.comm.state_ ∧
      s'.log = s.log ++ refusedTrace fuel := by
  induction fuel generalizing s with
  | zero =>
    refine ⟨s, ?_, hc, rfl, by simp [refusedTrace]⟩
    unfold tryConnectLoop
    simp [hc]
  | succ n ih =>
    obtain ⟨s', h1, h2, h3, h4⟩ := ih
      (close (emit (.connect 3 addrA) (emit (.ioctl 3 1)
        (emit (.socket addrA) { s with comm := { s.comm with socket_ := 3 } }))))
      (by simpa [close, emit] using hc) (by simpa [close, emit] using hl)
    refine ⟨s', ?_, h2, ?_, ?_⟩
    · rw [← h1]
      conv_lhs => unfold tryConnectLoop
      simp [hc, deref, hl, envRefuseFirst, EINPROGRESS]
    · simpa [close, emit] using h3
    · simpa [close, emit, refusedTrace] using h4

theorem refusedTrace_count (n : Nat) :
    (refusedTrace n).count (.connect 3 addrA) = n := by
  induction n with
  | zero => rfl
  | succ k ih =>
    simp only [refusedTrace, List.count_append, ih]
    have : List.count (Event.connect 3 addrA)
        [.socket addrA, .ioctl 3 1, .connect 3 addrA, .close 3] = 1 := by decide
    omega

theorem refusedTrace_no_addrB (n : Nat) : Event.socket addrB ∉ refusedTrace n := by
  induction n with
  | zero => simp [refusedTrace]
  | succ k ih =>
    simp only [refusedTrace, List.mem_append, not_or]
    exact ⟨by decide, ih⟩

/-- C1 (evaluation at the failing input): with the list `[addrA, addrB]`, `addrA`
refused and `addrB` accepting, `connect` never returns: whatever the fuel, the loop of
`tryConnect` is still running with the cursor on the first candidate, having attempted
only `addrA`, once per iteration. -/
theorem C1_connect_retries_first_candidate_forever (fuel : Nat) :
    ∃ s, connect envRefuseFirst fuel 0 7000 (fresh 42) = .outOfFuel s ∧
      s.comm.connectAddr_ = some ⟨1, 0⟩ ∧
      s.comm.state_ = .DISCONNECTED ∧
      s.log = [.getaddrinfo 0 7000] ++ refusedTrace fuel ∧
      s.log.count (.connect 3 addrA) = fuel ∧
      Event.socket addrB ∉ s.log := by
  obtain ⟨s, h1, h2, h3, h4⟩ := tryConnectLoop_refuseFirst fuel
    { comm := { (fresh 42).comm with
        addrInfo_ := some ⟨1, [addrA, addrB]⟩, connectAddr_ := some ⟨1, 0⟩ }
      log := [.getaddrinfo 0 7000] } rfl rfl
  have h4 : s.log = [.getaddrinfo 0 7000] ++ refusedTrace fuel := h4
  refine ⟨s, ?_, h2, h3, h4, ?_, ?_⟩
  · rw [← h1]
    rfl
  · rw [h4, List.count_append, refusedTrace_count]
    have : List.count (Event.connect 3 addrA) [Event.getaddrinfo 0 7000] = 0 := by decide
    omega
  · rw [h4, List.mem_append, not_or]
    exact ⟨by decide, refusedTrace_no_addrB fuel⟩

theorem tryConnectLoop_noSocket (fuel : Nat) (s : Sys)
    (hc : s.comm.connectAddr_ = some ⟨1, 0⟩)
    (hl : s.comm.addrInfo_ = some ⟨1, [addrA]⟩) :
    ∃ s', tryConnectLoop envNoSocket fuel s = .outOfFuel s' ∧
      s'.comm.connectAddr_ = some ⟨1, 0⟩ ∧ s'.comm.state_ = s.comm.state_ ∧
      s'.log = s.log ++ List.replicate fuel (.socket addrA) := by
  induction fuel generalizing s with
  | zero =>
    refine ⟨s, ?_, hc, rfl, by simp⟩
    unfold tryConnectLoop
    simp [hc]
  | succ n ih =>
    obtain ⟨s', h1, h2, h3, h4⟩ := ih
      (emit (.socket addrA) { s with comm := { s.comm with socket_ := -1 } })
      (by simpa [emit] using hc) (by simpa [emit] using hl)
    refine ⟨s', ?_, h2, ?_, ?_⟩
    · rw [← h1]
      conv_lhs => unfold tryConnectLoop
      simp [hc, deref, hl, envNoSocket]
    · simpa [emit] using h3
    · simpa [emit, List.replicate_succ] using h4

/-- C2 (evaluation at the failing input): with the single candidate `addrA` whose
socket creation fails, `connect` never returns and so never reaches Disconnected: whatever
the fuel, the loop of `tryConnect` is still running, the cursor has not advanced, and the
trace is one `socket` call on `addrA` per iteration. -/
theorem C2_connect_never_exhausts_failing_list (fuel : Nat) :
    ∃ s, connect envNoSocket fuel 0 7000 (fresh 42) = .outOfFuel s ∧
      s.comm.connectAddr_ = some ⟨1, 0⟩ ∧
      s.log = [.getaddrinfo 0 7000] ++ List.replicate fuel (.socket addrA) := by
  obtain ⟨s, h1, h2, _, h4⟩ := tryConnectLoop_noSocket fuel
    { comm := { (fresh 42).comm with
        addrInfo_ := some ⟨1, [addrA]⟩, connectAddr_ := some ⟨1, 0⟩ }
      log := [.getaddrinfo 0 7000] } rfl rfl
  refine ⟨s, ?_, h2, h4⟩
  rw [← h1]
  rfl

theorem flushOnce_frame (env : Env) (s : Sys) :
    (flushOnce env s).comm.state_ = s.comm.state_ ∧
    (flushOnce env s).comm.socket_ = s.comm.socket_ ∧
    (flushOnce env s).comm.rBuf_ = s.comm.rBuf_ ∧
    (flushOnce env s).comm.done_ = s.comm.done_ ∧
    (flushOnce env s).comm.problemId_ = s.comm.problemId_ ∧
    (flushOnce env s).comm.addrInfo_ = s.comm.addrInfo_ ∧
    (flushOnce env s).comm.connectAddr_ = s.comm.connectAddr_ := by
  unfold flushOnce
  split <;> simp [writeTo, emit]

theorem parseLoop_not_threw (env : Env) (fuel : Nat) (s : Sys) (e : Exn) (s' : Sys) :
    parseLoop env fuel s ≠ .threw e s' := by
  induction fuel generalizing s with
  | zero => simp [parseLoop]
  | succ n ih =>
    unfold parseLoop
    simp only
    split
    · exact ih _
    · simp

/-- C3: in state Connected, `process()` throws exactly when the receive attempt fails
with an errno other than EAGAIN and EINTR; when it fails with EAGAIN or EINTR,
`process()` returns normally and the connection state, the socket handle, the read
buffer and the done flag are what they were. -/
theorem C3_process_throws_iff_hard_recv_error (env : Env) (fuel : Nat) (s : Sys)
    (hs : s.comm.state_ = .CONNECTED) :
    ((∃ e s', process env fuel s = .threw e s') ↔
      ∃ errno, recvAttempt env s = .error errno ∧ errno ≠ EAGAIN ∧ errno ≠ EINTR) ∧
    (∀ errno, recvAttempt env s = .error errno → errno = EAGAIN ∨ errno = EINTR →
      ∃ s', process env fuel s = .returned s' ∧
        s'.comm.state_ = s.comm.state_ ∧ s'.comm.socket_ = s.comm.socket_ ∧
        s'.comm.rBuf_ = s.comm.rBuf_ ∧ s'.comm.done_ = s.comm.done_) := by
  have hp : process env fuel s = processConnected env fuel s := by
    unfold process
    rw [hs]
  rw [hp]
  obtain ⟨f1, f2, f3, f4, -⟩ := flushOnce_frame env s
  unfold processConnected
  constructor
  · constructor
    · rintro ⟨e, s', h⟩
      cases hr : recvAttempt env s with
      | error errno =>
        rw [hr] at h
        refine ⟨errno, rfl, ?_⟩
        by_contra hc
        have hc' : errno = EAGAIN ∨ errno = EINTR := by
          by_contra hn
          exact hc ⟨fun h1 => hn (Or.inl h1), fun h2 => hn (Or.inr h2)⟩
        simp [hc'] at h
      | data bs =>
        rw [hr] at h
        simp only at h
        split at h
        · simp at h
        · exact absurd h (parseLoop_not_threw _ _ _ _ _)
    · rintro ⟨errno, hr, h1, h2⟩
      rw [hr]
      exact ⟨.system_error errno, afterRecv env s, by simp [h1, h2]⟩
  · intro errno hr hw
    rw [hr]
    refine ⟨afterRecv env s, by simp only [hw, if_true], ?_⟩
    simp [afterRecv, emit, f1, f2, f3, f4]

/-- C3 at a concrete input: a connected manager whose `recv` would block. -/
theorem C3_witness :
    connectedIdle.comm.state_ = .CONNECTED ∧
    ∃ s', process envQuiet 1 connectedIdle = .returned s' ∧
      s'.comm.state_ = .CONNECTED ∧ s'.comm.socket_ = 3 ∧
      s'.comm.rBuf_ = connectedIdle.comm.rBuf_ ∧ s'.comm.done_ = false :=
  ⟨rfl, (C3_process_throws_iff_hard_recv_error envQuiet 1 connectedIdle rfl).2 EAGAIN rfl
    (Or.inl rfl)⟩

/-- C4 (the claim as stated fails): closing a connected manager leaves the state
Connected, and a second `close()` issues an OS close on the sentinel. -/
theorem C4_close_leaves_state_counterexample :
    (close connectedIdle).comm.state_ = .CONNECTED ∧
    (close connectedIdle).comm.state_ ≠ .DISCONNECTED ∧
    (close (close connectedIdle)).log = [.close 3, .close (-1)] := by
  decide

/-- C4 (amended): after `close()` the socket handle is the sentinel and every other
field, the connection state included, is what it was; a second `close()` in a row leaves
exactly the same manager; when the socket is open `close()` issues exactly one OS close,
on that handle. -/
theorem C4_close_resets_handle_only (s : Sys) :
    (close s).comm = { s.comm with socket_ := -1 } ∧
    (close s).comm.socket_ = -1 ∧
    (close s).comm.state_ = s.comm.state_ ∧
    (close (close s)).comm = (close s).comm ∧
    (s.comm.socket_ ≠ -1 → (close s).log = s.log ++ [.close s.comm.socket_]) := by
  refine ⟨rfl, rfl, rfl, rfl, fun _ => rfl⟩

/-- C4 (amended) at a concrete input: a manager connected on descriptor 3. -/
theorem C4_witness :
    connectedIdle.comm.socket_ ≠ -1 ∧ (close connectedIdle).log = [.close 3] :=
  ⟨by decide, (C4_close_resets_handle_only connectedIdle).2.2.2.2 (by decide)⟩

theorem dispatchAll_eq (ps : List Packet) (s : Sys) :
    dispatchAll ps s =
      { comm := { s.comm with done_ := s.comm.done_ || ps.any Packet.isDone }
        log := s.log ++ ps.map Event.dispatch } := by
  induction ps generalizing s with
  | nil => simp [dispatchAll]
  | cons p ps ih =>
    have h : dispatchAll (p :: ps) s = dispatchAll ps (dispatch p s) := rfl
    rw [h, ih]
    cases p <;> simp [dispatch, processDone, emit, Packet.isDone]

theorem exists_done_of_any (ps : List Packet) (h : ps.any Packet.isDone = true) :
    ∃ pid, Event.dispatch (.Done pid) ∈ ps.map Event.dispatch := by
  rw [List.any_eq_true] at h
  obtain ⟨p, hp, hd⟩ := h
  cases p with
  | Done pid => exact ⟨pid, List.mem_map_of_mem _ hp⟩
  | Hello pid => simp [Packet.isDone] at hd
  | other tag => simp [Packet.isDone] at hd

theorem DoneStep.of_same {s s' : Sys} {n : List Event} (hl : s'.log = s.log ++ n)
    (hd : s'.comm.done_ = s.comm.done_) : DoneStep s s' := by
  refine ⟨n, hl, fun h => by rw [hd, h], fun h h' => ?_⟩
  rw [hd, h] at h'
  cases h'

theorem DoneStep.andThen {a b c : Sys} (h1 : DoneStep a b) (h2 : DoneStep b c) :
    DoneStep a c := by
  obtain ⟨n1, l1, k1, f1⟩ := h1
  obtain ⟨n2, l2, k2, f2⟩ := h2
  refine ⟨n1 ++ n2, by rw [l2, l1, List.append_assoc], fun h => k2 (k1 h), fun h h' => ?_⟩
  cases hb : b.comm.done_ with
  | true =>
    obtain ⟨pid, hp⟩ := f1 h hb
    exact ⟨pid, List.mem_append_left _ hp⟩
  | false =>
    obtain ⟨pid, hp⟩ := f2 hb h'
    exact ⟨pid, List.mem_append_right _ hp⟩

theorem parseLoop_doneStep (env : Env) (fuel : Nat) (s : Sys) :
    DoneStep s (parseLoop env fuel s).sys := by
  induction fuel generalizing s with
  | zero => exact DoneStep.of_same (n := []) (by simp [parseLoop, Outcome.sys]) rfl
  | succ n ih =>
    have hd : DoneStep s (dispatchAll (env.parse s.comm.rBuf_).packets
        (emit .parse { s with comm := { s.comm with rBuf_ := (env.parse s.comm.rBuf_).buf } })) := by
      rw [dispatchAll_eq]
      refine ⟨[.parse] ++ (env.parse s.comm.rBuf_).packets.map Event.dispatch,
        by simp [emit], fun h => by simp [emit, h], fun h h' => ?_⟩
      simp only [emit, h, Bool.false_or] at h'
      obtain ⟨pid, hp⟩ := exists_done_of_any _ h'
      exact ⟨pid, List.mem_append_right _ hp⟩
    unfold parseLoop
    simp only
    split
    · exact hd.andThen (ih _)
    · exact hd.andThen (DoneStep.of_same (n := [.compact (env.parse s.comm.rBuf_).needed])
        (by simp [Outcome.sys, emit]) rfl)

theorem Quiet.followedBy {a b c : Sys} (h1 : Quiet a b) (h2 : Quiet b c) : Quiet a c :=
  ⟨h1.1.trans h2.1, h2.2.trans h1.2⟩

theorem Quiet.doneStep {s s' : Sys} (h : Quiet s s') : DoneStep s s' := by
  obtain ⟨⟨new, hl⟩, hd⟩ := h
  exact DoneStep.of_same hl.symm hd

theorem tryConnectLoop_quiet (env : Env) (fuel : Nat) (s : Sys) :
    Quiet s (tryConnectLoop env fuel s).sys := by
  induction fuel generalizing s with
  | zero =>
    unfold tryConnectLoop
    split <;> exact ⟨by simp [Outcome.sys, setState, emit], rfl⟩
  | succ n ih =>
    unfold tryConnectLoop
    split
    · exact ⟨by simp [Outcome.sys, setState, emit], rfl⟩
    · split
      · exact ⟨by simp [Outcome.sys], rfl⟩
      · simp only
        split
        · refine Quiet.followedBy ?_ (ih _)
          exact ⟨by simp [emit], rfl⟩
        · split
          · exact ⟨by simp [Outcome.sys, connected, pushBack, setState, emit], rfl⟩
          · split
            · exact ⟨by simp [Outcome.sys, setState, emit], rfl⟩
            · refine Quiet.followedBy ?_ (ih _)
              exact ⟨by simp [close, emit], rfl⟩

theorem tryConnect_quiet (env : Env) (fuel : Nat) (s : Sys) :
    Quiet s (tryConnect env fuel s).sys := by
  unfold tryConnect
  split
  · refine Quiet.followedBy ?_ (tryConnectLoop_quiet env fuel (close s))
    exact ⟨by simp [close, emit], rfl⟩
  · exact tryConnectLoop_quiet env fuel s

theorem afterFree_quiet (s : Sys) : Quiet s (afterFree s) := by
  unfold afterFree
  split
  · exact ⟨by simp [emit], rfl⟩
  · exact ⟨by simp, rfl⟩

theorem connect_quiet (env : Env) (fuel : Nat) (host : Nat) (port : Int) (s : Sys) :
    Quiet s (connect env fuel host port s).sys := by
  have hg : Quiet s (emit (.getaddrinfo host port) (afterFree s)) :=
    (afterFree_quiet s).followedBy ⟨by simp [emit], rfl⟩
  unfold connect
  simp only
  split
  · exact hg
  · refine Quiet.followedBy ?_ (tryConnect_quiet env fuel _)
    exact hg.followedBy ⟨by simp, rfl⟩

theorem writeTo_quiet (env : Env) (s : Sys) : Quiet s (writeTo env s) :=
  ⟨by simp [writeTo, emit], rfl⟩

theorem flushLoop_quiet (env : Env) (fuel : Nat) (s : Sys) :
    Quiet s (flushLoop env fuel s).sys := by
  induction fuel generalizing s with
  | zero =>
    unfold flushLoop
    split <;> exact ⟨by simp [Outcome.sys], rfl⟩
  | succ n ih =>
    unfold flushLoop
    split
    · exact ⟨by simp [Outcome.sys], rfl⟩
    · exact (writeTo_quiet env s).followedBy (ih _)

theorem sendDone_quiet (env : Env) (fuel : Nat) (s : Sys) :
    Quiet s (sendDone env fuel s).sys := by
  unfold sendDone
  refine Quiet.followedBy ?_ (flushLoop_quiet env fuel _)
  exact ⟨by simp [pushBack, emit], rfl⟩

theorem flushOnce_quiet (env : Env) (s : Sys) : Quiet s (flushOnce env s) := by
  unfold flushOnce
  split
  · exact ⟨by simp, rfl⟩
  · exact writeTo_quiet env s

theorem processConnected_doneStep (env : Env) (fuel : Nat) (s : Sys) :
    DoneStep s (processConnected env fuel s).sys := by
  have hr : Quiet s (afterRecv env s) := by
    refine (flushOnce_quiet env s).followedBy ?_
    exact ⟨by simp [afterRecv, emit], rfl⟩
  have hc : Quiet s (setState .DISCONNECTED (close (afterRecv env s))) := by
    refine hr.followedBy ?_
    exact ⟨by simp [setState, close, emit], rfl⟩
  have ha : ∀ got, Quiet s (appendAndFlip got (afterRecv env s)) := by
    intro got
    refine hr.followedBy ?_
    exact ⟨by simp [appendAndFlip, emit], rfl⟩
  unfold processConnected
  split
  · split <;> exact hr.doneStep
  · simp only
    split
    · exact hc.doneStep
    · exact DoneStep.andThen (ha _).doneStep (parseLoop_doneStep env fuel _)

theorem process_doneStep (env : Env) (fuel : Nat) (s : Sys) :
    DoneStep s (process env fuel s).sys := by
  have hp : Quiet s (emit (.poll s.comm.socket_) s) := ⟨by simp [emit], rfl⟩
  have hc : Quiet s (connected env (emit (.poll s.comm.socket_) s)) :=
    ⟨by simp [connected, pushBack, setState, emit], rfl⟩
  unfold process
  split
  · exact DoneStep.of_same (n := []) (by simp [Outcome.sys]) rfl
  · simp only
    split
    · exact hp.doneStep
    · split
      · split
        · exact hp.doneStep
        · refine Quiet.doneStep (hp.followedBy (Quiet.followedBy ?_ (tryConnect_quiet env fuel _)))
          exact ⟨by simp, rfl⟩
      · split
        · exact hp.doneStep
        · exact DoneStep.andThen hc.doneStep (processConnected_doneStep env fuel _)
  · exact processConnected_doneStep env fuel s

theorem after_eq_sys {o : Outcome} {s : Sys} (h : o.after = some s) : o.sys = s := by
  cases o <;> simp [Outcome.after, Outcome.sys] at h ⊢ <;> exact h

theorem step_doneStep (env : Env) (fuel : Nat) (op : Op) (s : Sys) :
    DoneStep s (step env fuel op s).sys := by
  cases op with
  | connect host port => exact (connect_quiet env fuel host port s).doneStep
  | process => exact process_doneStep env fuel s
  | sendDone => exact (sendDone_quiet env fuel s).doneStep
  | close => exact DoneStep.of_same (n := [.close s.comm.socket_]) rfl rfl

theorem step_quiet_of_ne_process (env : Env) (fuel : Nat) (op : Op) (s : Sys)
    (h : op ≠ .process) : Quiet s (step env fuel op s).sys := by
  cases op with
  | connect host port => exact connect_quiet env fuel host port s
  | process => exact absurd rfl h
  | sendDone => exact sendDone_quiet env fuel s
  | close => exact ⟨by simp [step, Outcome.sys, close, emit], rfl⟩

/-- C5: along every sequence of `connect()`, `process()`, `sendDone()` and `close()`
calls a done flag that is true stays true, and a single call turns it from false to true
only if the call is `process()` and a decoded `Done` packet was dispatched during it. -/
theorem C5_done_flag_monotone_set_only_by_peer_done (env : Env) :
    (∀ (ops : List (Nat × Op)) (s s' : Sys), runOps env ops s = some s' →
      s.comm.done_ = true → s'.comm.done_ = true) ∧
    (∀ (fuel : Nat) (op : Op) (s s' : Sys), (step env fuel op s).after = some s' →
      s.comm.done_ = false → s'.comm.done_ = true →
      op = .process ∧ ∃ pid, Event.dispatch (.Done pid) ∈ s'.log.drop s.log.length) := by
  constructor
  · intro ops
    induction ops with
    | nil =>
      intro s s' h hd
      simp only [runOps, Option.some.injEq] at h
      rw [← h]
      exact hd
    | cons fo rest ih =>
      intro s s' h hd
      obtain ⟨fuel, op⟩ := fo
      simp only [runOps] at h
      cases ha : (step env fuel op s).after with
      | none => rw [ha] at h; cases h
      | some s1 =>
        rw [ha] at h
        have hs := step_doneStep env fuel op s
        rw [after_eq_sys ha] at hs
        obtain ⟨_, _, k, _⟩ := hs
        exact ih s1 s' h (k hd)
  · intro fuel op s s' ha hf ht
    have hsys := after_eq_sys ha
    constructor
    · by_contra hne
      have hq := step_quiet_of_ne_process env fuel op s hne
      rw [hsys] at hq
      rw [hq.2, hf] at ht
      cases ht
    · have hs := step_doneStep env fuel op s
      rw [hsys] at hs
      obtain ⟨new, hl, _, f⟩ := hs
      obtain ⟨pid, hp⟩ := f hf ht
      exact ⟨pid, by rw [hl, List.drop_left]; exact hp⟩

/-- C5 at a concrete input: a connected manager receives `Hello` then `Done` in one
`process()` call, and the flag goes from false to true in that call. -/
theorem C5_witness :
    (step envHelloDone 3 .process connectedIdle).after =
      some (step envHelloDone 3 .process connectedIdle).sys ∧
    connectedIdle.comm.done_ = false ∧
    (step envHelloDone 3 .process connectedIdle).sys.comm.done_ = true ∧
    (Op.process = Op.process ∧ ∃ pid, Event.dispatch (.Done pid) ∈
      (step envHelloDone 3 .process connectedIdle).sys.log.drop connectedIdle.log.length) :=
  ⟨by decide, rfl, by decide,
    (C5_done_flag_monotone_set_only_by_peer_done envHelloDone).2 3 .process connectedIdle
      (step envHelloDone 3 .process connectedIdle).sys (by decide) rfl (by decide)⟩

theorem WriteQueue.bytes_dropBytes (k : Nat) (bufs : List (List Byte)) :
    WriteQueue.bytes { buffers := WriteQueue.dropBytes k bufs } =
      (WriteQueue.bytes { buffers := bufs }).drop k := by
  induction bufs generalizing k with
  | nil => simp [WriteQueue.dropBytes, WriteQueue.bytes]
  | cons b bs ih =>
    unfold WriteQueue.dropBytes
    split
    · rename_i h
      rw [ih]
      simp only [WriteQueue.bytes, List.foldr_cons]
      rw [List.drop_append_eq_append_drop, List.drop_of_length_le h, List.nil_append]
    · rename_i h
      simp only [WriteQueue.bytes, List.foldr_cons]
      rw [List.drop_append_of_le_length (by omega)]

theorem sentBytes_append (fd : Int) (l1 l2 : List Event) :
    sentBytes fd (l1 ++ l2) = sentBytes fd l1 ++ sentBytes fd l2 := by
  induction l1 with
  | nil => simp [sentBytes]
  | cons e l ih =>
    cases e <;> simp [sentBytes, ih]
    split <;> simp

theorem WriteQueue.bytes_push_back (q : WriteQueue) (b : List Byte) :
    (q.push_back b).bytes = q.bytes ++ b := by
  obtain ⟨bufs⟩ := q
  simp only [WriteQueue.push_back, WriteQueue.bytes]
  induction bufs with
  | nil => simp
  | cons x xs ih => simp [ih]

theorem flushLoop_drains (env : Env)
    (hprog : ∀ t fd n, 0 < n → 0 < env.send t fd n) (fuel : Nat) (s : Sys)
    (hf : s.comm.writeQueue_.bytes.length ≤ fuel) :
    ∃ s' tail, flushLoop env fuel s = .returned s' ∧
      s'.comm.writeQueue_.empty = true ∧
      s'.comm.socket_ = s.comm.socket_ ∧
      s'.log = s.log ++ tail ∧
      sentBytes s.comm.socket_ tail = s.comm.writeQueue_.bytes ∧
      ∀ e ∈ tail, ∃ bs, e = Event.writeTo s.comm.socket_ bs := by
  induction fuel generalizing s with
  | zero =>
    have he : s.comm.writeQueue_.bytes = [] := List.eq_nil_of_length_eq_zero (by omega)
    refine ⟨s, [], ?_, by simp [WriteQueue.empty, he], rfl, by simp, by simp [sentBytes, he],
      by simp⟩
    simp [flushLoop, WriteQueue.empty, he]
  | succ n ih =>
    by_cases he : s.comm.writeQueue_.empty = true
    · have hb : s.comm.writeQueue_.bytes = [] := by
        simpa [WriteQueue.empty] using he
      refine ⟨s, [], ?_, he, rfl, by simp, by simp [sentBytes, hb], by simp⟩
      unfold flushLoop
      simp [he]
    · have hpos : 0 < s.comm.writeQueue_.bytes.length := by
        rcases hb : s.comm.writeQueue_.bytes with _ | ⟨x, xs⟩
        · exact absurd (by simp [WriteQueue.empty, hb]) he
        · simp
      have hk := hprog s.tick s.comm.socket_ _ hpos
      have hbytes : (writeTo env s).comm.writeQueue_.bytes =
          s.comm.writeQueue_.bytes.drop
            (min (env.send s.tick s.comm.socket_ s.comm.writeQueue_.bytes.length)
              s.comm.writeQueue_.bytes.length) := by
        simp only [writeTo, emit]
        exact WriteQueue.bytes_dropBytes _ _
      obtain ⟨s', tail, h1, h2, h3, h4, h5, h6⟩ := ih (writeTo env s) (by
        rw [hbytes, List.length_drop]
        omega)
      have hs : (writeTo env s).comm.socket_ = s.comm.socket_ := rfl
      refine ⟨s', Event.writeTo s.comm.socket_ (s.comm.writeQueue_.bytes.take
        (min (env.send s.tick s.comm.socket_ s.comm.writeQueue_.bytes.length)
          s.comm.writeQueue_.bytes.length)) :: tail, ?_, h2, h3, ?_, ?_, ?_⟩
      · unfold flushLoop
        simp only [he]
        exact h1
      · rw [h4]
        simp [writeTo, emit]
      · rw [hs, hbytes] at h5
        simp only [sentBytes, if_true, h5]
        exact List.take_append_drop _ _
      · intro e hm
        rcases List.mem_cons.mp hm with h | h
        · exact ⟨_, h⟩
        · exact h6 e h

theorem flushLoop_returned (env : Env) (fuel : Nat) (s s' : Sys)
    (h : flushLoop env fuel s = .returned s') :
    s'.comm.writeQueue_.empty = true ∧
    s'.comm.socket_ = s.comm.socket_ ∧
    ∃ tail, s'.log = s.log ++ tail ∧
      sentBytes s.comm.socket_ tail = s.comm.writeQueue_.bytes ∧
      ∀ e ∈ tail, ∃ bs, e = Event.writeTo s.comm.socket_ bs := by
  induction fuel generalizing s with
  | zero =>
    unfold flushLoop at h
    split at h
    · rename_i he
      simp only [Outcome.returned.injEq] at h
      subst h
      have hb : s.comm.writeQueue_.bytes = [] := by simpa [WriteQueue.empty] using he
      exact ⟨he, rfl, [], by simp, by simp [sentBytes, hb], by simp⟩
    · cases h
  | succ n ih =>
    unfold flushLoop at h
    split at h
    · rename_i he
      simp only [Outcome.returned.injEq] at h
      subst h
      have hb : s.comm.writeQueue_.bytes = [] := by simpa [WriteQueue.empty] using he
      exact ⟨he, rfl, [], by simp, by simp [sentBytes, hb], by simp⟩
    · obtain ⟨h2, h3, tail, h4, h5, h6⟩ := ih (writeTo env s) h
      have hs : (writeTo env s).comm.socket_ = s.comm.socket_ := rfl
      have hbytes : (writeTo env s).comm.writeQueue_.bytes =
          s.comm.writeQueue_.bytes.drop
            (min (env.send s.tick s.comm.socket_ s.comm.writeQueue_.bytes.length)
              s.comm.writeQueue_.bytes.length) := by
        simp only [writeTo, emit]
        exact WriteQueue.bytes_dropBytes _ _
      refine ⟨h2, h3, Event.writeTo s.comm.socket_ (s.comm.writeQueue_.bytes.take
        (min (env.send s.tick s.comm.socket_ s.comm.writeQueue_.bytes.length)
          s.comm.writeQueue_.bytes.length)) :: tail, ?_, ?_, ?_⟩
      · rw [h4]
        simp [writeTo, emit]
      · rw [hs, hbytes] at h5
        simp only [sentBytes, if_true, h5]
        exact List.take_append_drop _ _
      · intro e hm
        rcases List.mem_cons.mp hm with h | h
        · exact ⟨_, h⟩
        · exact h6 e h

/-- C6: `sendDone()` first asks the OS for blocking mode on the socket, then appends the
`Done` packet of the manager's problem id at the tail of the queue, then only flushes.
Whenever it returns, for every environment, the bytes written to the socket are exactly
the previously queued bytes followed by the encoded `Done`, in that order, and the queue
reports empty.  It does return, given fuel for one iteration per queued byte, when every
flush of a non-empty queue writes at least one byte. -/
theorem C6_sendDone_flushes_queue_then_done (env : Env) (s : Sys) (fuel : Nat) :
    sendDone env fuel s = flushLoop env fuel
      { comm := { s.comm with writeQueue_ :=
          { buffers := s.comm.writeQueue_.buffers ++ [env.encode (.Done s.comm.problemId_)] } }
        log := s.log ++ [.ioctl s.comm.socket_ 0, .push_back (.Done s.comm.problemId_)] } ∧
    (∀ s', sendDone env fuel s = .returned s' →
      s'.comm.writeQueue_.empty = true ∧
      ∃ tail,
        s'.log = s.log ++
          [.ioctl s.comm.socket_ 0, .push_back (.Done s.comm.problemId_)] ++ tail ∧
        (∀ e ∈ tail, ∃ bs, e = Event.writeTo s.comm.socket_ bs) ∧
        sentBytes s.comm.socket_ tail =
          s.comm.writeQueue_.bytes ++ env.encode (.Done s.comm.problemId_)) ∧
    ((∀ t fd n, 0 < n → 0 < env.send t fd n) →
      (s.comm.writeQueue_.bytes ++ env.encode (.Done s.comm.problemId_)).length ≤ fuel →
      ∃ s', sendDone env fuel s = .returned s') := by
  have hb : (pushBack env (.Done s.comm.problemId_)
      (emit (.ioctl s.comm.socket_ 0) s)).comm.writeQueue_.bytes =
      s.comm.writeQueue_.bytes ++ env.encode (.Done s.comm.problemId_) :=
    WriteQueue.bytes_push_back _ _
  refine ⟨?_, ?_, ?_⟩
  · simp [sendDone, pushBack, emit, WriteQueue.push_back]
  · intro s' h
    obtain ⟨h2, -, tail, h4, h5, h6⟩ := flushLoop_returned env fuel
      (pushBack env (.Done s.comm.problemId_) (emit (.ioctl s.comm.socket_ 0) s)) s' h
    refine ⟨h2, tail, ?_, h6, ?_⟩
    · rw [h4]
      simp [pushBack, emit]
    · rw [← hb]
      exact h5
  · intro hprog hfuel
    obtain ⟨s', tail, h1, -⟩ := flushLoop_drains env hprog fuel
      (pushBack env (.Done s.comm.problemId_) (emit (.ioctl s.comm.socket_ 0) s))
      (by rw [hb]; exact hfuel)
    exact ⟨s', h1⟩

/-- C6 at concrete inputs: three packets queued and a socket that takes three bytes per
write, where `sendDone()` returns with the eight bytes written in order and the queue
empty; and a socket whose first write stalls, where it still returns with the same bytes. -/
theorem C6_witness :
    (∀ t fd n, 0 < n → 0 < envSlowSocket.send t fd n) ∧
    (connectedThreeQueued.comm.writeQueue_.bytes ++
      envSlowSocket.encode (.Done connectedThreeQueued.comm.problemId_)).length ≤ 8 ∧
    (∃ s' tail, sendDone envSlowSocket 8 connectedThreeQueued = .returned s' ∧
      s'.comm.writeQueue_.empty = true ∧
      s'.log = [.ioctl 3 0, .push_back (.Done 42)] ++ tail ∧
      sentBytes 3 tail = [9, 1, 9, 2, 9, 3, 2, 42]) ∧
    (envStallOnce.send 2 3 8 = 0 ∧
      ∃ s' tail, sendDone envStallOnce 2 connectedThreeQueued = .returned s' ∧
        s'.comm.writeQueue_.empty = true ∧
        s'.log = [.ioctl 3 0, .push_back (.Done 42)] ++ tail ∧
        sentBytes 3 tail = [9, 1, 9, 2, 9, 3, 2, 42]) := by
  have hp : ∀ (t : Nat) (fd : Int) (n : Nat), 0 < n → 0 < envSlowSocket.send t fd n := by
    intro t fd n hn
    simp only [envSlowSocket]
    omega
  have hl : (connectedThreeQueued.comm.writeQueue_.bytes ++
      envSlowSocket.encode (.Done connectedThreeQueued.comm.problemId_)).length ≤ 8 := by
    decide
  obtain ⟨-, hret, hterm⟩ :=
    C6_sendDone_flushes_queue_then_done envSlowSocket connectedThreeQueued 8
  obtain ⟨s', h1⟩ := hterm hp hl
  obtain ⟨h2, tail, h3, -, h5⟩ := hret s' h1
  obtain ⟨-, hret2, -⟩ :=
    C6_sendDone_flushes_queue_then_done envStallOnce connectedThreeQueued 2
  obtain ⟨k2, tail2, k3, -, k5⟩ :=
    hret2 (sendDone envStallOnce 2 connectedThreeQueued).sys (by decide)
  exact ⟨hp, hl, ⟨s', tail, h1, h2, h3, h5⟩,
    ⟨by decide, _, tail2, by decide, k2, k3, k5⟩⟩

theorem ioAttempts_append (l1 l2 : List Event) :
    ioAttempts (l1 ++ l2) = ioAttempts l1 ++ ioAttempts l2 := by
  simp [ioAttempts]

theorem ioAttempts_map_dispatch (ps : List Packet) :
    ioAttempts (ps.map Event.dispatch) = [] := by
  induction ps with
  | nil => rfl
  | cons p ps ih =>
    simp only [List.map_cons]
    have h : ioAttempts (Event.dispatch p :: ps.map Event.dispatch) =
        ioAttempts (ps.map Event.dispatch) := rfl
    rw [h, ih]

theorem parseLoop_ioAttempts (env : Env) (fuel : Nat) (s : Sys) :
    ∃ rest, (parseLoop env fuel s).sys.log = s.log ++ rest ∧ ioAttempts rest = [] := by
  induction fuel generalizing s with
  | zero => exact ⟨[], by simp [parseLoop, Outcome.sys], rfl⟩
  | succ n ih =>
    unfold parseLoop
    simp only
    split
    · obtain ⟨rest, h1, h2⟩ := ih (dispatchAll (env.parse s.comm.rBuf_).packets
        (emit .parse { s with comm := { s.comm with rBuf_ := (env.parse s.comm.rBuf_).buf } }))
      refine ⟨[.parse] ++ (env.parse s.comm.rBuf_).packets.map Event.dispatch ++ rest, ?_, ?_⟩
      · rw [h1, dispatchAll_eq]
        simp [emit]
      · rw [ioAttempts_append, ioAttempts_append, h2, ioAttempts_map_dispatch]
        rfl
    · refine ⟨[.parse] ++ (env.parse s.comm.rBuf_).packets.map Event.dispatch ++
        [.compact (env.parse s.comm.rBuf_).needed], ?_, ?_⟩
      · rw [dispatchAll_eq]
        simp [Outcome.sys, emit]
      · rw [ioAttempts_append, ioAttempts_append, ioAttempts_map_dispatch]
        rfl

theorem flushOnce_log (env : Env) (s : Sys) :
    ∃ sent, (flushOnce env s).log =
      s.log ++ (if s.comm.writeQueue_.empty then [] else [.writeTo s.comm.socket_ sent]) := by
  unfold flushOnce
  split
  · exact ⟨[], by simp⟩
  · exact ⟨_, rfl⟩

theorem processConnected_ioAttempts (env : Env) (fuel : Nat) (s : Sys) :
    ∃ new sent, (processConnected env fuel s).sys.log = s.log ++ new ∧
      ioAttempts new =
        (if s.comm.writeQueue_.empty then [] else [.writeTo s.comm.socket_ sent]) ++
          [.recv s.comm.socket_ s.comm.rBuf_.remaining] := by
  obtain ⟨f1, f2, f3, -⟩ := flushOnce_frame env s
  obtain ⟨sent, hfl⟩ := flushOnce_log env s
  have hio : ioAttempts ((if s.comm.writeQueue_.empty then []
      else [Event.writeTo s.comm.socket_ sent]) ++
        [Event.recv s.comm.socket_ s.comm.rBuf_.remaining]) =
      (if s.comm.writeQueue_.empty then [] else [Event.writeTo s.comm.socket_ sent]) ++
        [Event.recv s.comm.socket_ s.comm.rBuf_.remaining] := by
    split <;> rfl
  have hr : (afterRecv env s).log = s.log ++
      ((if s.comm.writeQueue_.empty then [] else [Event.writeTo s.comm.socket_ sent]) ++
        [Event.recv s.comm.socket_ s.comm.rBuf_.remaining]) := by
    simp only [afterRecv, emit, hfl, f2, f3, List.append_assoc]
  unfold processConnected
  split
  · refine ⟨_, sent, ?_, hio⟩
    split <;> exact hr
  · simp only
    split
    · refine ⟨((if s.comm.writeQueue_.empty then [] else [Event.writeTo s.comm.socket_ sent]) ++
        [Event.recv s.comm.socket_ s.comm.rBuf_.remaining]) ++
        [.close (afterRecv env s).comm.socket_, .setState .DISCONNECTED], sent, ?_, ?_⟩
      · simp only [Outcome.sys, setState, close, emit, hr, List.append_assoc]
        rfl
      · rw [ioAttempts_append, hio]
        simp [ioAttempts, Event.isFlush, Event.isRecv]
    · rename_i bs _ _
      obtain ⟨rest, h1, h2⟩ := parseLoop_ioAttempts env fuel
        (appendAndFlip (bs.take (flushOnce env s).comm.rBuf_.remaining) (afterRecv env s))
      refine ⟨((if s.comm.writeQueue_.empty then [] else [Event.writeTo s.comm.socket_ sent]) ++
        [Event.recv s.comm.socket_ s.comm.rBuf_.remaining]) ++
        ([.advance (bs.take (flushOnce env s).comm.rBuf_.remaining).length, .flip] ++ rest),
        sent, ?_, ?_⟩
      · rw [h1]
        simp only [appendAndFlip, emit, hr, List.append_assoc]
        rfl
      · rw [ioAttempts_append, hio, ioAttempts_append, h2]
        simp [ioAttempts, Event.isFlush, Event.isRecv]

/-- C7 (the claim as stated fails): a connected manager with an empty write queue makes
no flush attempt in `process()`, only the receive attempt. -/
theorem C7_empty_queue_no_flush_counterexample :
    connectedIdle.comm.state_ = .CONNECTED ∧
    connectedIdle.comm.writeQueue_.buffers = [] ∧
    process envQuiet 1 connectedIdle = .returned { connectedIdle with log := [.recv 3 8] } ∧
    ((process envQuiet 1 connectedIdle).sys.log.filter Event.isFlush).length = 0 ∧
    ((process envQuiet 1 connectedIdle).sys.log.filter Event.isRecv).length = 1 := by
  decide

/-- C7 (amended): in every `process()` call that is in or enters Connected, the flush and
receive attempts of the call are, in this order, one flush attempt if the write queue is
not empty (none if it is empty) and then exactly one receive attempt. -/
theorem C7_guarded_flush_then_one_recv (env : Env) (fuel : Nat) (s : Sys) :
    (s.comm.state_ = .CONNECTED →
      ∃ sent, ioAttempts ((process env fuel s).sys.log.drop s.log.length) =
        (if s.comm.writeQueue_.empty then [] else [.writeTo s.comm.socket_ sent]) ++
          [.recv s.comm.socket_ s.comm.rBuf_.remaining]) ∧
    (s.comm.state_ = .CONNECTING →
      (env.poll s.tick s.comm.socket_).ret ≠ -1 →
      (env.poll s.tick s.comm.socket_).revents &&& (POLLHUP ||| POLLERR) = 0 →
      (env.poll s.tick s.comm.socket_).revents &&& POLLOUT ≠ 0 →
      ∃ sent, ioAttempts ((process env fuel s).sys.log.drop s.log.length) =
        (if (s.comm.writeQueue_.push_back (env.encode (.Hello s.comm.problemId_))).empty
          then [] else [.writeTo s.comm.socket_ sent]) ++
          [.recv s.comm.socket_ s.comm.rBuf_.remaining]) := by
  constructor
  · intro hs
    have hp : process env fuel s = processConnected env fuel s := by
      unfold process
      rw [hs]
    obtain ⟨new, sent, h1, h2⟩ := processConnected_ioAttempts env fuel s
    exact ⟨sent, by rw [hp, h1, List.drop_left, h2]⟩
  · intro hs h1 h2 h3
    have hp : process env fuel s =
        processConnected env fuel (connected env (emit (.poll s.comm.socket_) s)) := by
      unfold process
      rw [hs]
      simp only [h1, h2, h3, if_false, ne_eq, not_true_eq_false]
    obtain ⟨new, sent, k1, k2⟩ :=
      processConnected_ioAttempts env fuel (connected env (emit (.poll s.comm.socket_) s))
    refine ⟨sent, ?_⟩
    have hl : (connected env (emit (.poll s.comm.socket_) s)).log =
        s.log ++ [.poll s.comm.socket_, .setState .CONNECTED,
          .push_back (.Hello s.comm.problemId_)] := by
      simp [connected, pushBack, setState, emit]
    rw [hp, k1, hl, List.append_assoc, List.drop_left, ioAttempts_append, k2]
    rfl

/-- C7 (amended) at concrete inputs: a connected manager with three packets queued, and a
connecting manager whose socket has just become writable. -/
theorem C7_witness :
    (connectedThreeQueued.comm.state_ = .CONNECTED ∧
      ∃ sent, ioAttempts ((process envQuiet 1 connectedThreeQueued).sys.log.drop 0) =
        [.writeTo 3 sent, .recv 3 8]) ∧
    (connectingOnA.comm.state_ = .CONNECTING ∧
      ∃ sent, ioAttempts ((process envQuiet 1 connectingOnA).sys.log.drop 0) =
        [.writeTo 3 sent, .recv 3 8]) :=
  ⟨⟨rfl, (C7_guarded_flush_then_one_recv envQuiet 1 connectedThreeQueued).1 rfl⟩,
    ⟨rfl, (C7_guarded_flush_then_one_recv envQuiet 1 connectingOnA).2 rfl
      (by decide) (by decide) (by decide)⟩⟩

theorem helloTrace_append (l1 l2 : List Event) :
    helloTrace (l1 ++ l2) = helloTrace l1 ++ helloTrace l2 := by
  simp [helloTrace]

theorem helloTrace_map_dispatch (ps : List Packet) :
    helloTrace (ps.map Event.dispatch) = [] := by
  induction ps with
  | nil => rfl
  | cons p ps ih =>
    simp only [List.map_cons]
    have h : helloTrace (Event.dispatch p :: ps.map Event.dispatch) =
        helloTrace (ps.map Event.dispatch) := rfl
    rw [h, ih]

theorem NoHello.refl (s : Sys) : NoHello s s := ⟨[], by simp, rfl⟩

theorem NoHello.concat {a b c : Sys} (h1 : NoHello a b) (h2 : NoHello b c) : NoHello a c := by
  obtain ⟨n1, l1, k1⟩ := h1
  obtain ⟨n2, l2, k2⟩ := h2
  exact ⟨n1 ++ n2, by rw [l2, l1, List.append_assoc], by rw [helloTrace_append, k1, k2]; rfl⟩

theorem NoHello.helloStep {s s' : Sys} (pid : Nat) (h : NoHello s s') : HelloStep pid s s' := by
  obtain ⟨new, hl, hn⟩ := h
  exact ⟨new, hl, Or.inl hn⟩

theorem NoHello.then_hello {a b c : Sys} {pid : Nat} (h1 : NoHello a b)
    (h2 : HelloStep pid b c) : HelloStep pid a c := by
  obtain ⟨n1, l1, k1⟩ := h1
  obtain ⟨n2, l2, k2⟩ := h2
  refine ⟨n1 ++ n2, by rw [l2, l1, List.append_assoc], ?_⟩
  rw [helloTrace_append, k1, List.nil_append]
  exact k2

theorem connected_log (env : Env) (s : Sys) :
    (connected env s).log =
      s.log ++ [.setState .CONNECTED, .push_back (.Hello s.comm.problemId_)] := by
  simp [connected, pushBack, setState, emit]

theorem tryConnectLoop_helloStep (env : Env) (fuel : Nat) (s : Sys) :
    HelloStep s.comm.problemId_ s (tryConnectLoop env fuel s).sys := by
  induction fuel generalizing s with
  | zero =>
    unfold tryConnectLoop
    split
    · exact ⟨[.setState .DISCONNECTED], rfl, Or.inl rfl⟩
    · exact ⟨[], by simp [Outcome.sys], Or.inl rfl⟩
  | succ n ih =>
    unfold tryConnectLoop
    split
    · exact ⟨[.setState .DISCONNECTED], rfl, Or.inl rfl⟩
    · split
      · exact ⟨[], by simp [Outcome.sys], Or.inl rfl⟩
      · rename_i a _
        simp only
        split
        · refine NoHello.then_hello ?_ (ih _)
          exact ⟨[.socket a], rfl, rfl⟩
        · split
          · refine ⟨[.socket a, .ioctl (env.socket s.tick a) 1,
              .connect (env.socket s.tick a) a, .setState .CONNECTED,
              .push_back (.Hello s.comm.problemId_)], ?_, Or.inr rfl⟩
            simp [Outcome.sys, connected_log, emit]
          · split
            · refine ⟨[.socket a, .ioctl (env.socket s.tick a) 1,
                .connect (env.socket s.tick a) a, .setState .CONNECTING], ?_, Or.inl rfl⟩
              simp [Outcome.sys, setState, emit]
            · refine NoHello.then_hello ?_ (ih _)
              refine ⟨[.socket a, .ioctl (env.socket s.tick a) 1,
                .connect (env.socket s.tick a) a, .close (env.socket s.tick a)], ?_, rfl⟩
              simp [close, emit]

theorem tryConnect_helloStep (env : Env) (fuel : Nat) (s : Sys) :
    HelloStep s.comm.problemId_ s (tryConnect env fuel s).sys := by
  unfold tryConnect
  split
  · refine NoHello.then_hello ?_ (tryConnectLoop_helloStep env fuel (close s))
    exact ⟨[.close s.comm.socket_], rfl, rfl⟩
  · exact tryConnectLoop_helloStep env fuel s

theorem afterFree_noHello (s : Sys) : NoHello s (afterFree s) := by
  unfold afterFree
  split
  · rename_i l _
    exact ⟨[.freeaddrinfo l.id], rfl, rfl⟩
  · exact NoHello.refl s

theorem connect_helloStep (env : Env) (fuel : Nat) (host : Nat) (port : Int) (s : Sys) :
    HelloStep s.comm.problemId_ s (connect env fuel host port s).sys := by
  have hid : (afterFree s).comm.problemId_ = s.comm.problemId_ := by
    unfold afterFree
    split <;> rfl
  have hg : NoHello s (emit (.getaddrinfo host port) (afterFree s)) :=
    (afterFree_noHello s).concat ⟨[.getaddrinfo host port], rfl, rfl⟩
  have key : ∀ x : Sys, x.comm.problemId_ = s.comm.problemId_ → NoHello s x →
      HelloStep s.comm.problemId_ s (tryConnect env fuel x).sys := by
    intro x hx hn
    have ht := tryConnect_helloStep env fuel x
    rw [hx] at ht
    exact hn.then_hello ht
  unfold connect
  simp only
  split
  · exact hg.helloStep _
  · refine key _ ?_ ?_
    · exact hid
    · exact hg.concat ⟨[], by simp, rfl⟩

theorem writeTo_noHello (env : Env) (s : Sys) : NoHello s (writeTo env s) :=
  ⟨[.writeTo s.comm.socket_ (s.comm.writeQueue_.bytes.take
    (min (env.send s.tick s.comm.socket_ s.comm.writeQueue_.bytes.length)
      s.comm.writeQueue_.bytes.length))], rfl, rfl⟩

theorem flushLoop_noHello (env : Env) (fuel : Nat) (s : Sys) :
    NoHello s (flushLoop env fuel s).sys := by
  induction fuel generalizing s with
  | zero =>
    unfold flushLoop
    split <;> exact NoHello.refl s
  | succ n ih =>
    unfold flushLoop
    split
    · exact NoHello.refl s
    · exact NoHello.concat (writeTo_noHello env s) (ih (writeTo env s))

theorem sendDone_noHello (env : Env) (fuel : Nat) (s : Sys) :
    NoHello s (sendDone env fuel s).sys := by
  unfold sendDone
  refine NoHello.concat ?_ (flushLoop_noHello env fuel _)
  exact ⟨[.ioctl s.comm.socket_ 0, .push_back (.Done s.comm.problemId_)],
    by simp [pushBack, emit], rfl⟩

theorem parseLoop_noHello (env : Env) (fuel : Nat) (s : Sys) :
    NoHello s (parseLoop env fuel s).sys := by
  induction fuel generalizing s with
  | zero => exact NoHello.refl s
  | succ n ih =>
    have hd : NoHello s (dispatchAll (env.parse s.comm.rBuf_).packets
        (emit .parse { s with comm := { s.comm with rBuf_ := (env.parse s.comm.rBuf_).buf } })) := by
      refine ⟨[.parse] ++ (env.parse s.comm.rBuf_).packets.map Event.dispatch, ?_, ?_⟩
      · rw [dispatchAll_eq]
        simp [emit]
      · rw [helloTrace_append, helloTrace_map_dispatch]
        rfl
    unfold parseLoop
    simp only
    split
    · exact hd.concat (ih _)
    · exact hd.concat ⟨[.compact (env.parse s.comm.rBuf_).needed], rfl, rfl⟩

theorem processConnected_noHello (env : Env) (fuel : Nat) (s : Sys) :
    NoHello s (processConnected env fuel s).sys := by
  have hf : NoHello s (flushOnce env s) := by
    unfold flushOnce
    split
    · exact NoHello.refl s
    · exact writeTo_noHello env s
  have hr : NoHello s (afterRecv env s) :=
    hf.concat ⟨[.recv (flushOnce env s).comm.socket_ (flushOnce env s).comm.rBuf_.remaining],
      rfl, rfl⟩
  unfold processConnected
  split
  · split <;> exact hr
  · simp only
    split
    · exact hr.concat ⟨[.close (afterRecv env s).comm.socket_, .setState .DISCONNECTED],
        by simp [Outcome.sys, setState, close, emit], rfl⟩
    · rename_i bs _ _
      refine (hr.concat ?_).concat (parseLoop_noHello env fuel _)
      exact ⟨[.advance (bs.take (flushOnce env s).comm.rBuf_.remaining).length, .flip],
        by simp [appendAndFlip, emit], rfl⟩

theorem process_helloStep (env : Env) (fuel : Nat) (s : Sys) :
    HelloStep s.comm.problemId_ s (process env fuel s).sys := by
  have hp : NoHello s (emit (.poll s.comm.socket_) s) := ⟨[.poll s.comm.socket_], rfl, rfl⟩
  unfold process
  split
  · exact (NoHello.refl s).helloStep _
  · simp only
    split
    · exact hp.helloStep _
    · split
      · split
        · exact hp.helloStep _
        · refine hp.then_hello (NoHello.then_hello ?_ (tryConnect_helloStep env fuel _))
          exact ⟨[], by simp, rfl⟩
      · split
        · exact hp.helloStep _
        · obtain ⟨new, hl, hn⟩ := processConnected_noHello env fuel
            (connected env (emit (.poll s.comm.socket_) s))
          refine ⟨[.poll s.comm.socket_, .setState .CONNECTED,
            .push_back (.Hello s.comm.problemId_)] ++ new, ?_, Or.inr ?_⟩
          · rw [hl, connected_log]
            simp [emit]
          · rw [helloTrace_append, hn]
            rfl
  · exact (processConnected_noHello env fuel s).helloStep _

theorem step_helloStep (env : Env) (fuel : Nat) (op : Op) (s : Sys) :
    HelloStep s.comm.problemId_ s (step env fuel op s).sys := by
  cases op with
  | connect host port => exact connect_helloStep env fuel host port s
  | process => exact process_helloStep env fuel s
  | sendDone => exact (sendDone_noHello env fuel s).helloStep _
  | close => exact ⟨[.close s.comm.socket_], rfl, Or.inl rfl⟩

theorem tryConnect_eq_loop (env : Env) (fuel : Nat) (s : Sys) :
    tryConnect env fuel s = tryConnectLoop env fuel (loopEntry s) := rfl

theorem connect_eq_tryConnect (env : Env) (fuel : Nat) (host : Nat) (port : Int) (s : Sys)
    (h : (resolution env host port s).err = 0) :
    connect env fuel host port s = tryConnect env fuel (resolved env host port s) := by
  unfold connect
  simp only [h, ne_eq, not_true_eq_false, if_false]
  rfl

theorem loopEntry_noHello (s : Sys) : NoHello s (loopEntry s) := by
  unfold loopEntry
  split
  · exact ⟨[.close s.comm.socket_], rfl, rfl⟩
  · exact NoHello.refl s

theorem loopEntry_frame (s : Sys) :
    (loopEntry s).comm.writeQueue_ = s.comm.writeQueue_ ∧
    (loopEntry s).comm.problemId_ = s.comm.problemId_ ∧
    deref (loopEntry s).comm = deref s.comm := by
  unfold loopEntry
  split <;> exact ⟨rfl, rfl, rfl⟩

theorem resolved_noHello (env : Env) (host : Nat) (port : Int) (s : Sys) :
    NoHello s (resolved env host port s) :=
  (afterFree_noHello s).concat ⟨[.getaddrinfo host port], rfl, rfl⟩

theorem resolved_frame (env : Env) (host : Nat) (port : Int) (s : Sys) :
    (resolved env host port s).comm.writeQueue_ = s.comm.writeQueue_ ∧
    (resolved env host port s).comm.problemId_ = s.comm.problemId_ := by
  unfold resolved afterFree
  split <;> exact ⟨rfl, rfl⟩

theorem resolved_deref (env : Env) (host : Nat) (port : Int) (s : Sys) (a : AddrInfo)
    (rest : List AddrInfo) (h : (resolution env host port s).res = a :: rest) :
    deref (resolved env host port s).comm = some a := by
  simp [resolved, deref, h]

theorem tryConnectLoop_first_success (env : Env) (fuel : Nat) (s : Sys) (a : AddrInfo)
    (hd : deref s.comm = some a)
    (hsock : env.socket s.tick a ≠ -1)
    (hconn : (env.connect (s.tick + 2) (env.socket s.tick a) a).ret = 0) :
    ∃ s', tryConnectLoop env (fuel + 1) s = .returned s' ∧
      s'.comm.state_ = .CONNECTED ∧
      s'.comm.writeQueue_.buffers =
        s.comm.writeQueue_.buffers ++ [env.encode (.Hello s.comm.problemId_)] ∧
      s'.log = s.log ++ [.socket a, .ioctl (env.socket s.tick a) 1,
        .connect (env.socket s.tick a) a, .setState .CONNECTED,
        .push_back (.Hello s.comm.problemId_)] := by
  have hc : s.comm.connectAddr_ ≠ none := by
    intro h
    simp [deref, h] at hd
  obtain ⟨p, hp⟩ := Option.ne_none_iff_exists'.mp hc
  have ht : ∀ c : Comm, (emit (.ioctl (env.socket s.tick a) 1) (emit (.socket a)
      { comm := c, log := s.log })).tick = s.tick + 2 := by
    intro c
    simp [Sys.tick, emit]
  refine ⟨connected env (emit (.connect (env.socket s.tick a) a)
    (emit (.ioctl (env.socket s.tick a) 1) (emit (.socket a)
      { s with comm := { s.comm with socket_ := env.socket s.tick a } }))), ?_, rfl, rfl, ?_⟩
  · unfold tryConnectLoop
    simp only [hp, hd, hsock, if_false, ht, hconn, if_true]
  · rw [connected_log]
    simp [emit]

theorem first_success_from (env : Env) (fuel : Nat) (s x : Sys) (a : AddrInfo)
    (hn : NoHello s x)
    (hq : x.comm.writeQueue_ = s.comm.writeQueue_)
    (hpid : x.comm.problemId_ = s.comm.problemId_)
    (hd : deref x.comm = some a)
    (hsock : env.socket x.tick a ≠ -1)
    (hconn : (env.connect (x.tick + 2) (env.socket x.tick a) a).ret = 0) :
    ∃ s', tryConnectLoop env (fuel + 1) x = .returned s' ∧
      s'.comm.state_ = .CONNECTED ∧
      s'.comm.writeQueue_.buffers =
        s.comm.writeQueue_.buffers ++ [env.encode (.Hello s.comm.problemId_)] ∧
      helloTrace (s'.log.drop s.log.length) =
        [.setState .CONNECTED, .push_back (.Hello s.comm.problemId_)] := by
  obtain ⟨s', h1, h2, h3, h4⟩ := tryConnectLoop_first_success env fuel x a hd hsock hconn
  obtain ⟨pre, hl, hpre⟩ := hn
  refine ⟨s', h1, h2, by rw [h3, hq, hpid], ?_⟩
  rw [h4, hl, List.append_assoc, List.drop_left, helloTrace_append, hpre, hpid]
  rfl

theorem tryConnectLoop_returned_cases (env : Env) (fuel : Nat) (s s' : Sys)
    (h : tryConnectLoop env fuel s = .returned s') :
    ∃ new, s'.log = s.log ++ new ∧
      ((s'.comm.state_ = .CONNECTED ∧
          s'.comm.writeQueue_.buffers =
            s.comm.writeQueue_.buffers ++ [env.encode (.Hello s.comm.problemId_)] ∧
          helloTrace new = [.setState .CONNECTED, .push_back (.Hello s.comm.problemId_)]) ∨
        (s'.comm.state_ ≠ .CONNECTED ∧
          s'.comm.writeQueue_ = s.comm.writeQueue_ ∧ helloTrace new = [])) := by
  induction fuel generalizing s with
  | zero =>
    unfold tryConnectLoop at h
    split at h
    · simp only [Outcome.returned.injEq] at h
      subst h
      exact ⟨[.setState .DISCONNECTED], rfl, Or.inr ⟨by simp [setState, emit], rfl, rfl⟩⟩
    · cases h
  | succ n ih =>
    unfold tryConnectLoop at h
    split at h
    · simp only [Outcome.returned.injEq] at h
      subst h
      exact ⟨[.setState .DISCONNECTED], rfl, Or.inr ⟨by simp [setState, emit], rfl, rfl⟩⟩
    · split at h
      · cases h
      · rename_i a _
        simp only at h
        split at h
        · obtain ⟨new, hl, hc⟩ := ih _ h
          refine ⟨[.socket a] ++ new, by rw [hl]; simp [emit], ?_⟩
          rw [helloTrace_append]
          exact hc
        · split at h
          · simp only [Outcome.returned.injEq] at h
            subst h
            refine ⟨[.socket a, .ioctl (env.socket s.tick a) 1,
              .connect (env.socket s.tick a) a, .setState .CONNECTED,
              .push_back (.Hello s.comm.problemId_)], ?_, Or.inl ⟨rfl, rfl, rfl⟩⟩
            rw [connected_log]
            simp [emit]
          · split at h
            · simp only [Outcome.returned.injEq] at h
              subst h
              refine ⟨[.socket a, .ioctl (env.socket s.tick a) 1,
                .connect (env.socket s.tick a) a, .setState .CONNECTING], ?_,
                Or.inr ⟨by simp [setState, emit], rfl, rfl⟩⟩
              simp [setState, emit]
            · obtain ⟨new, hl, hc⟩ := ih _ h
              refine ⟨[.socket a, .ioctl (env.socket s.tick a) 1,
                .connect (env.socket s.tick a) a, .close (env.socket s.tick a)] ++ new,
                by rw [hl]; simp [close, emit], ?_⟩
              rw [helloTrace_append]
              exact hc

/-- C8: (1) when the first connect issued by the driver `tryConnect()` for the candidate
under the cursor returns 0, the driver returns with state Connected and the encoded
`Hello` of the manager's problem id appended at the tail of the write queue, the earlier
entries untouched; (2) the same for `connect()` when the resolver succeeds and the connect
to the first candidate returns 0; (3) the same at the head of any iteration of the
driver's loop; (4) however the driver returns, either it ends Connected with exactly that
one `Hello` appended, or it ends in another state with the write queue untouched;
(5) when `process()` in Connecting sees POLLOUT with neither POLLHUP nor POLLERR, the
manager becomes Connected with that `Hello` appended at the tail, and the Connected arm
of the same call runs on that manager; (6) in every call of every operation, the writes
of Connected to the state and the enqueued `Hello` packets are either none at all, or
exactly one transition immediately followed by exactly one `Hello` carrying the problem
id. -/
theorem C8_hello_enqueued_exactly_on_transition (env : Env) (fuel : Nat) (s : Sys) :
    (∀ a, deref s.comm = some a →
      env.socket (loopEntry s).tick a ≠ -1 →
      (env.connect ((loopEntry s).tick + 2) (env.socket (loopEntry s).tick a) a).ret = 0 →
      ∃ s', tryConnect env (fuel + 1) s = .returned s' ∧
        s'.comm.state_ = .CONNECTED ∧
        s'.comm.writeQueue_.buffers =
          s.comm.writeQueue_.buffers ++ [env.encode (.Hello s.comm.problemId_)] ∧
        helloTrace (s'.log.drop s.log.length) =
          [.setState .CONNECTED, .push_back (.Hello s.comm.problemId_)]) ∧
    (∀ host port a rest,
      (resolution env host port s).err = 0 →
      (resolution env host port s).res = a :: rest →
      env.socket (loopEntry (resolved env host port s)).tick a ≠ -1 →
      (env.connect ((loopEntry (resolved env host port s)).tick + 2)
        (env.socket (loopEntry (resolved env host port s)).tick a) a).ret = 0 →
      ∃ s', connect env (fuel + 1) host port s = .returned s' ∧
        s'.comm.state_ = .CONNECTED ∧
        s'.comm.writeQueue_.buffers =
          s.comm.writeQueue_.buffers ++ [env.encode (.Hello s.comm.problemId_)] ∧
        helloTrace (s'.log.drop s.log.length) =
          [.setState .CONNECTED, .push_back (.Hello s.comm.problemId_)]) ∧
    (∀ a, deref s.comm = some a →
      env.socket s.tick a ≠ -1 →
      (env.connect (s.tick + 2) (env.socket s.tick a) a).ret = 0 →
      ∃ s', tryConnectLoop env (fuel + 1) s = .returned s' ∧
        s'.comm.state_ = .CONNECTED ∧
        s'.comm.writeQueue_.buffers =
          s.comm.writeQueue_.buffers ++ [env.encode (.Hello s.comm.problemId_)] ∧
        helloTrace (s'.log.drop s.log.length) =
          [.setState .CONNECTED, .push_back (.Hello s.comm.problemId_)]) ∧
    (∀ s', tryConnect env fuel s = .returned s' →
      (s'.comm.state_ = .CONNECTED ∧
        s'.comm.writeQueue_.buffers =
          s.comm.writeQueue_.buffers ++ [env.encode (.Hello s.comm.problemId_)] ∧
        helloTrace (s'.log.drop s.log.length) =
          [.setState .CONNECTED, .push_back (.Hello s.comm.problemId_)]) ∨
      (s'.comm.state_ ≠ .CONNECTED ∧
        s'.comm.writeQueue_ = s.comm.writeQueue_ ∧
        helloTrace (s'.log.drop s.log.length) = [])) ∧
    (s.comm.state_ = .CONNECTING →
      (env.poll s.tick s.comm.socket_).ret ≠ -1 →
      (env.poll s.tick s.comm.socket_).revents &&& (POLLHUP ||| POLLERR) = 0 →
      (env.poll s.tick s.comm.socket_).revents &&& POLLOUT ≠ 0 →
      ∃ s0, process env fuel s = processConnected env fuel s0 ∧
        s0.comm.state_ = .CONNECTED ∧
        s0.comm.writeQueue_.buffers =
          s.comm.writeQueue_.buffers ++ [env.encode (.Hello s.comm.problemId_)] ∧
        s0.log = s.log ++ [.poll s.comm.socket_, .setState .CONNECTED,
          .push_back (.Hello s.comm.problemId_)] ∧
        helloTrace ((process env fuel s).sys.log.drop s.log.length) =
          [.setState .CONNECTED, .push_back (.Hello s.comm.problemId_)]) ∧
    (∀ op, helloTrace ((step env fuel op s).sys.log.drop s.log.length) = [] ∨
      helloTrace ((step env fuel op s).sys.log.drop s.log.length) =
        [.setState .CONNECTED, .push_back (.Hello s.comm.problemId_)]) := by
  refine ⟨?_, ?_, ?_, ?_, ?_, ?_⟩
  · intro a hd hsock hconn
    obtain ⟨fq, fp, fd⟩ := loopEntry_frame s
    rw [tryConnect_eq_loop]
    exact first_success_from env fuel s (loopEntry s) a (loopEntry_noHello s) fq fp
      (by rw [fd]; exact hd) hsock hconn
  · intro host port a rest herr hres hsock hconn
    obtain ⟨fq, fp, fd⟩ := loopEntry_frame (resolved env host port s)
    obtain ⟨rq, rp⟩ := resolved_frame env host port s
    rw [connect_eq_tryConnect env (fuel + 1) host port s herr, tryConnect_eq_loop]
    exact first_success_from env fuel s (loopEntry (resolved env host port s)) a
      ((resolved_noHello env host port s).concat (loopEntry_noHello _))
      (by rw [fq, rq]) (by rw [fp, rp])
      (by rw [fd]; exact resolved_deref env host port s a rest hres) hsock hconn
  · intro a hd hsock hconn
    exact first_success_from env fuel s s a (NoHello.refl s) rfl rfl hd hsock hconn
  · intro s' h
    obtain ⟨fq, fp, -⟩ := loopEntry_frame s
    obtain ⟨pre, hl, hpre⟩ := loopEntry_noHello s
    rw [tryConnect_eq_loop] at h
    obtain ⟨new, hn, hc⟩ := tryConnectLoop_returned_cases env fuel (loopEntry s) s' h
    have hdrop : helloTrace (s'.log.drop s.log.length) = helloTrace new := by
      rw [hn, hl, List.append_assoc, List.drop_left, helloTrace_append, hpre]
      rfl
    rw [hdrop]
    rw [fq, fp] at hc
    exact hc
  · intro hs h1 h2 h3
    have hp : process env fuel s =
        processConnected env fuel (connected env (emit (.poll s.comm.socket_) s)) := by
      unfold process
      rw [hs]
      simp only [h1, h2, h3, if_false, ne_eq, not_true_eq_false]
    have hl : (connected env (emit (.poll s.comm.socket_) s)).log =
        s.log ++ [.poll s.comm.socket_, .setState .CONNECTED,
          .push_back (.Hello s.comm.problemId_)] := by
      rw [connected_log]
      simp [emit]
    refine ⟨connected env (emit (.poll s.comm.socket_) s), hp, rfl, rfl, hl, ?_⟩
    obtain ⟨new, k1, k2⟩ := processConnected_noHello env fuel
      (connected env (emit (.poll s.comm.socket_) s))
    rw [hp, k1, hl, List.append_assoc, List.drop_left, helloTrace_append, k2]
    rfl
  · intro op
    obtain ⟨new, hl, h⟩ := step_helloStep env fuel op s
    rw [hl, List.drop_left]
    exact h

/-- C8 at concrete inputs: `connect()` on a fresh manager whose first candidate accepts
at once; `tryConnect()` on the manager `connect()` hands to it; and `process()` on the
manager a `connect()` left Connecting, whose socket has just become writable. -/
theorem C8_witness :
    (∃ s', connect envSlowSocket 1 0 7000 (fresh 42) = .returned s' ∧
      s'.comm.state_ = .CONNECTED ∧ s'.comm.writeQueue_.buffers = [[1, 42]]) ∧
    (∃ s', tryConnect envSlowSocket 1 (resolved envSlowSocket 0 7000 (fresh 42))
        = .returned s' ∧
      s'.comm.state_ = .CONNECTED ∧ s'.comm.writeQueue_.buffers = [[1, 42]]) ∧
    ((connect envQuiet 1 0 7000 (fresh 42)).sys.comm.state_ = .CONNECTING ∧
      ∃ s0, process envQuiet 0 (connect envQuiet 1 0 7000 (fresh 42)).sys
          = processConnected envQuiet 0 s0 ∧
        s0.comm.state_ = .CONNECTED ∧ s0.comm.writeQueue_.buffers = [[1, 42]]) := by
  have h := C8_hello_enqueued_exactly_on_transition envSlowSocket 0 (fresh 42)
  have g := C8_hello_enqueued_exactly_on_transition envSlowSocket 0
    (resolved envSlowSocket 0 7000 (fresh 42))
  have k := C8_hello_enqueued_exactly_on_transition envQuiet 0
    (connect envQuiet 1 0 7000 (fresh 42)).sys
  obtain ⟨s', h1, h2, h3, -⟩ := h.2.1 0 7000 addrA [] rfl rfl (by decide) (by decide)
  obtain ⟨s1, g1, g2, g3, -⟩ := g.1 addrA rfl (by decide) (by decide)
  obtain ⟨s0, k1, k2, k3, -⟩ := k.2.2.2.2.1 (by decide) (by decide) (by decide) (by decide)
  exact ⟨⟨s', h1, h2, h3⟩, ⟨s1, g1, g2, g3⟩, ⟨by decide, s0, k1, k2, k3⟩⟩

/-- The deferred path does walk the list: with two candidates that both fail by POLLHUP,
`connect()` and two `process()` calls end Disconnected with the sentinel handle and the
cursor past the end, one attempt per candidate in resolver order. -/
theorem deferred_failures_exhaust_the_list :
    ∃ s, runOps envAllHangUp [(1, .connect 0 7000), (1, .process), (1, .process)] (fresh 42)
        = some s ∧
      s.comm.state_ = .DISCONNECTED ∧ s.comm.socket_ = -1 ∧ s.comm.connectAddr_ = none ∧
      s.log.filter (fun e => e matches .connect _ _) = [.connect 3 addrA, .connect 3 addrB] := by
  refine ⟨_, rfl, ?_⟩
  decide

/-- A single candidate that accepts at once is reached with one attempt. -/
theorem single_candidate_connects_at_once :
    ∃ s, connect envSlowSocket 1 0 7000 (fresh 42) = .returned s ∧
      s.comm.state_ = .CONNECTED ∧ s.comm.connectAddr_ = some ⟨1, 0⟩ ∧
      s.log = [.getaddrinfo 0 7000, .socket addrA, .ioctl 3 1, .connect 3 addrA,
        .setState .CONNECTED, .push_back (.Hello 42)] := by
  refine ⟨_, rfl, ?_⟩
  decide

theorem parseLoop_frame (env : Env) (fuel : Nat) (s : Sys) :
    (parseLoop env fuel s).sys.comm.state_ = s.comm.state_ ∧
    (parseLoop env fuel s).sys.comm.socket_ = s.comm.socket_ ∧
    (parseLoop env fuel s).sys.comm.addrInfo_ = s.comm.addrInfo_ ∧
    (parseLoop env fuel s).sys.comm.connectAddr_ = s.comm.connectAddr_ := by
  induction fuel generalizing s with
  | zero => exact ⟨rfl, rfl, rfl, rfl⟩
  | succ n ih =>
    unfold parseLoop
    simp only [dispatchAll_eq]
    split
    · obtain ⟨h1, h2, h3, h4⟩ := ih
        { comm := { (emit Event.parse { s with comm := { s.comm with
              rBuf_ := (env.parse s.comm.rBuf_).buf } }).comm with
            done_ := (emit Event.parse { s with comm := { s.comm with
              rBuf_ := (env.parse s.comm.rBuf_).buf } }).comm.done_ ||
                (env.parse s.comm.rBuf_).packets.any Packet.isDone }
          log := (emit Event.parse { s with comm := { s.comm with
              rBuf_ := (env.parse s.comm.rBuf_).buf } }).log ++
                (env.parse s.comm.rBuf_).packets.map Event.dispatch }
      exact ⟨h1, h2, h3, h4⟩
    · exact ⟨rfl, rfl, rfl, rfl⟩

theorem flushLoop_frame (env : Env) (fuel : Nat) (s : Sys) :
    (flushLoop env fuel s).sys.comm.state_ = s.comm.state_ ∧
    (flushLoop env fuel s).sys.comm.socket_ = s.comm.socket_ ∧
    (flushLoop env fuel s).sys.comm.addrInfo_ = s.comm.addrInfo_ ∧
    (flushLoop env fuel s).sys.comm.connectAddr_ = s.comm.connectAddr_ := by
  induction fuel generalizing s with
  | zero =>
    unfold flushLoop
    split <;> exact ⟨rfl, rfl, rfl, rfl⟩
  | succ n ih =>
    unfold flushLoop
    split
    · exact ⟨rfl, rfl, rfl, rfl⟩
    · exact ih (writeTo env s)

theorem flushLoop_not_undefined (env : Env) (fuel : Nat) (s s' : Sys) :
    flushLoop env fuel s ≠ .undefinedBehaviour s' := by
  induction fuel generalizing s with
  | zero =>
    unfold flushLoop
    split <;> simp
  | succ n ih =>
    unfold flushLoop
    split
    · simp
    · exact ih _

theorem parseLoop_not_undefined (env : Env) (fuel : Nat) (s s' : Sys) :
    parseLoop env fuel s ≠ .undefinedBehaviour s' := by
  induction fuel generalizing s with
  | zero => simp [parseLoop]
  | succ n ih =>
    unfold parseLoop
    simp only
    split
    · exact ih _
    · simp

theorem processConnected_not_undefined (env : Env) (fuel : Nat) (s s' : Sys) :
    processConnected env fuel s ≠ .undefinedBehaviour s' := by
  unfold processConnected
  split
  · split <;> simp
  · simp only
    split
    · simp
    · exact parseLoop_not_undefined _ _ _ _

theorem processConnected_state (env : Env) (fuel : Nat) (s : Sys) :
    (processConnected env fuel s).sys.comm.state_ = s.comm.state_ ∨
    (processConnected env fuel s).sys.comm.state_ = .DISCONNECTED := by
  obtain ⟨f1, -⟩ := flushOnce_frame env s
  unfold processConnected
  split
  · split <;> exact Or.inl f1
  · simp only
    split
    · exact Or.inr rfl
    · left
      rw [(parseLoop_frame env fuel _).1]
      exact f1

theorem tryConnectLoop_connectingInv (env : Env) (fuel : Nat) (s s' : Sys)
    (h : (tryConnectLoop env fuel s).after = some s') : ConnectingInv s'.comm := by
  induction fuel generalizing s with
  | zero =>
    unfold tryConnectLoop at h
    split at h
    · simp only [Outcome.after, Option.some.injEq] at h
      subst h
      intro hc
      cases hc
    · simp [Outcome.after] at h
  | succ n ih =>
    unfold tryConnectLoop at h
    split at h
    · simp only [Outcome.after, Option.some.injEq] at h
      subst h
      intro hc
      cases hc
    · split at h
      · simp [Outcome.after] at h
      · rename_i a hd
        simp only at h
        split at h
        · exact ih _ h
        · rename_i hfd
          split at h
          · simp only [Outcome.after, Option.some.injEq] at h
            subst h
            intro hc
            cases hc
          · split at h
            · simp only [Outcome.after, Option.some.injEq] at h
              subst h
              intro _
              refine ⟨hfd, ?_⟩
              have : deref (setState State.CONNECTING (emit (.connect (env.socket s.tick a) a)
                  (emit (.ioctl (env.socket s.tick a) 1) (emit (.socket a)
                    { s with comm := { s.comm with socket_ := env.socket s.tick a } })))).comm =
                  deref s.comm := rfl
              rw [this, hd]
              rfl
            · exact ih _ h

theorem tryConnect_connectingInv (env : Env) (fuel : Nat) (s s' : Sys)
    (h : (tryConnect env fuel s).after = some s') : ConnectingInv s'.comm := by
  unfold tryConnect at h
  exact tryConnectLoop_connectingInv env fuel _ s' h

theorem tryConnectLoop_not_undefined (env : Env) (fuel : Nat) (s s' : Sys)
    (hc : s.comm.connectAddr_ = none ∨ (deref s.comm).isSome = true) :
    tryConnectLoop env fuel s ≠ .undefinedBehaviour s' := by
  induction fuel generalizing s with
  | zero =>
    unfold tryConnectLoop
    split <;> simp
  | succ n ih =>
    unfold tryConnectLoop
    split
    · simp
    · rename_i p hp
      split
      · rename_i hd
        rcases hc with h | h
        · rw [hp] at h
          cases h
        · rw [hd] at h
          cases h
      · simp only
        split
        · exact ih _ hc
        · split
          · simp
          · split
            · simp
            · exact ih _ hc

theorem tryConnect_not_undefined (env : Env) (fuel : Nat) (s s' : Sys)
    (hc : s.comm.connectAddr_ = none ∨ (deref s.comm).isSome = true) :
    tryConnect env fuel s ≠ .undefinedBehaviour s' := by
  unfold tryConnect
  split
  · exact tryConnectLoop_not_undefined env fuel (close s) s' hc
  · exact tryConnectLoop_not_undefined env fuel s s' hc

theorem ConnectingInv.cursorInv {c : Comm} (h : ConnectingInv c) : CursorInv c :=
  fun hc => (h hc).2

theorem deref_congr {c c' : Comm} (h1 : c'.addrInfo_ = c.addrInfo_)
    (h2 : c'.connectAddr_ = c.connectAddr_) : deref c' = deref c := by
  unfold deref
  rw [h1, h2]

theorem afterFree_state (s : Sys) : (afterFree s).comm.state_ = s.comm.state_ := by
  unfold afterFree
  split <;> rfl

theorem connect_connectingInv (env : Env) (fuel : Nat) (host : Nat) (port : Int) (s s' : Sys)
    (hok : s.comm.state_ = .CONNECTING → (resolution env host port s).err = 0)
    (h : (connect env fuel host port s).after = some s') : ConnectingInv s'.comm := by
  unfold connect at h
  simp only at h
  split at h
  · rename_i herr
    simp only [Outcome.after, Option.some.injEq] at h
    subst h
    intro hc
    have hs : s.comm.state_ = .CONNECTING := by
      rw [← afterFree_state s]
      exact hc
    exact absurd (hok hs) herr
  · exact tryConnect_connectingInv env fuel _ s' h

theorem connect_not_undefined (env : Env) (fuel : Nat) (host : Nat) (port : Int) (s s' : Sys) :
    connect env fuel host port s ≠ .undefinedBehaviour s' := by
  unfold connect
  simp only
  split
  · simp
  · apply tryConnect_not_undefined
    simp only
    split
    · exact Or.inl rfl
    · rename_i hne
      right
      simp only [deref, if_true]
      cases hr : (resolution env host port s).res with
      | nil => exact absurd hr hne
      | cons a as => simp

theorem aiNext_valid (c : Comm) (nxt : Option NodePtr) (h : aiNext c = some nxt) :
    nxt = none ∨ (deref { c with connectAddr_ := nxt }).isSome = true := by
  unfold aiNext at h
  split at h
  · rename_i p l hp hl
    split at h
    · rename_i hv
      simp only [Option.some.injEq] at h
      subst h
      split
      · rename_i hlt
        right
        simp only [deref, hl, hv.1, if_true]
        rw [List.getElem?_eq_getElem hlt]
        rfl
      · exact Or.inl rfl
    · cases h
  · cases h

theorem aiNext_of_deref (c : Comm) (h : (deref c).isSome = true) : aiNext c ≠ none := by
  unfold deref at h
  unfold aiNext
  split
  · rename_i p l hp hl
    simp only [hp, hl] at h
    split at h
    · rename_i heq
      have hlt : p.idx < l.nodes.length := by
        by_contra hge
        rw [List.getElem?_eq_none (by omega)] at h
        cases h
      simp [heq, hlt]
    · cases h
  · rename_i hn
    cases hp : c.connectAddr_ with
    | none => simp [hp] at h
    | some p =>
      cases hl : c.addrInfo_ with
      | none => simp [hp, hl] at h
      | some l => exact absurd hl (hn p l hp)

theorem process_step_inv (env : Env) (fuel : Nat) (s s' : Sys)
    (h : (process env fuel s).after = some s') :
    s'.comm = s.comm ∨ ConnectingInv s'.comm := by
  have hvac : ∀ x : Sys, x.comm.state_ = .CONNECTED →
      (processConnected env fuel x).after = some s' → ConnectingInv s'.comm := by
    intro x hx hx'
    have hs := after_eq_sys hx'
    intro hc
    rcases processConnected_state env fuel x with h1 | h1
    · rw [hs, hx, hc] at h1
      cases h1
    · rw [hs, hc] at h1
      cases h1
  unfold process at h
  split at h
  · simp only [Outcome.after, Option.some.injEq] at h
    exact Or.inl (by rw [← h])
  · simp only at h
    split at h
    · simp only [Outcome.after, Option.some.injEq] at h
      exact Or.inl (by rw [← h]; rfl)
    · split at h
      · split at h
        · simp [Outcome.after] at h
        · exact Or.inr (tryConnect_connectingInv env fuel _ s' h)
      · split at h
        · simp only [Outcome.after, Option.some.injEq] at h
          exact Or.inl (by rw [← h]; rfl)
        · exact Or.inr (hvac _ rfl h)
  · rename_i hst
    exact Or.inr (hvac s hst h)

theorem process_not_undefined (env : Env) (fuel : Nat) (s s' : Sys)
    (hinv : CursorInv s.comm) : process env fuel s ≠ .undefinedBehaviour s' := by
  unfold process
  split
  · simp
  · rename_i hst
    simp only
    split
    · simp
    · split
      · have hd : (deref (emit (.poll s.comm.socket_) s).comm).isSome = true := hinv hst
        split
        · rename_i hn
          exact absurd hn (aiNext_of_deref _ hd)
        · rename_i nxt hn
          apply tryConnect_not_undefined
          rcases aiNext_valid _ nxt hn with h | h
          · exact Or.inl h
          · exact Or.inr h
      · split
        · simp
        · exact processConnected_not_undefined _ _ _ _
  · exact processConnected_not_undefined _ _ _ _

theorem sendDone_frame (env : Env) (fuel : Nat) (s : Sys) :
    (sendDone env fuel s).sys.comm.state_ = s.comm.state_ ∧
    (sendDone env fuel s).sys.comm.socket_ = s.comm.socket_ ∧
    (sendDone env fuel s).sys.comm.addrInfo_ = s.comm.addrInfo_ ∧
    (sendDone env fuel s).sys.comm.connectAddr_ = s.comm.connectAddr_ := by
  unfold sendDone
  exact flushLoop_frame env fuel _

theorem step_cursorInv (env : Env) (fuel : Nat) (op : Op) (s s' : Sys)
    (hok : StepOk env op s) (hinv : CursorInv s.comm)
    (h : (step env fuel op s).after = some s') : CursorInv s'.comm := by
  cases op with
  | connect host port => exact (connect_connectingInv env fuel host port s s' hok h).cursorInv
  | process =>
    rcases process_step_inv env fuel s s' h with h1 | h1
    · rw [h1]
      exact hinv
    · exact h1.cursorInv
  | sendDone =>
    have hs := after_eq_sys h
    obtain ⟨f1, -, f3, f4⟩ := sendDone_frame env fuel s
    simp only [step] at hs
    rw [hs] at f1 f3 f4
    intro hc
    rw [deref_congr f3 f4]
    exact hinv (by rw [← f1]; exact hc)
  | close =>
    simp only [step, Outcome.after, Option.some.injEq] at h
    subst h
    exact hinv

theorem step_connectingInv (env : Env) (fuel : Nat) (op : Op) (s s' : Sys)
    (hok : StepOk env op s) (hop : op = .close → s.comm.state_ ≠ .CONNECTING)
    (hinv : ConnectingInv s.comm)
    (h : (step env fuel op s).after = some s') : ConnectingInv s'.comm := by
  cases op with
  | connect host port => exact connect_connectingInv env fuel host port s s' hok h
  | process =>
    rcases process_step_inv env fuel s s' h with h1 | h1
    · rw [h1]
      exact hinv
    · exact h1
  | sendDone =>
    have hs := after_eq_sys h
    obtain ⟨f1, f2, f3, f4⟩ := sendDone_frame env fuel s
    simp only [step] at hs
    rw [hs] at f1 f2 f3 f4
    intro hc
    rw [deref_congr f3 f4, f2]
    exact hinv (by rw [← f1]; exact hc)
  | close =>
    simp only [step, Outcome.after, Option.some.injEq] at h
    subst h
    intro hc
    exact absurd hc (hop rfl)

theorem step_not_undefined (env : Env) (fuel : Nat) (op : Op) (s s' : Sys)
    (hinv : CursorInv s.comm) : step env fuel op s ≠ .undefinedBehaviour s' := by
  cases op with
  | connect host port => exact connect_not_undefined env fuel host port s s'
  | process => exact process_not_undefined env fuel s s' hinv
  | sendDone =>
    simp only [step, sendDone]
    exact flushLoop_not_undefined _ _ _ _
  | close => simp [step]

/-- C10 (evaluation at the failing input): from a fresh manager, a `connect()` that
leaves the manager Connecting, followed by a `connect()` whose resolution fails, yields a
manager that is still Connecting on the old socket while the address list has been
released and the cursor still points into it: the invariant is broken, and the next
`process()` that sees POLLHUP reads `connectAddr_->ai_next` through the dangling cursor. -/
theorem C10_failed_resolution_leaves_dangling_cursor :
    ConnectingInv (fresh 42).comm ∧
    ∃ s, runOps envResolveOnlyHost0 [(1, .connect 0 7000), (1, .connect 1 7000)] (fresh 42)
        = some s ∧
      s.comm.state_ = .CONNECTING ∧
      s.comm.socket_ = 3 ∧
      s.comm.addrInfo_ = none ∧
      s.comm.connectAddr_ = some ⟨1, 0⟩ ∧
      deref s.comm = none ∧
      ¬ ConnectingInv s.comm ∧
      s.log = [.getaddrinfo 0 7000, .socket addrA, .ioctl 3 1, .connect 3 addrA,
        .setState .CONNECTING, .freeaddrinfo 1, .getaddrinfo 1 7000] ∧
      process envResolveOnlyHost0 1 s = .undefinedBehaviour (emit (.poll 3) s) := by
  refine ⟨by decide, _, rfl, ?_⟩
  decide

/-- A `close()` issued while Connecting leaves the state Connecting with the sentinel
handle; the cursor still designates its candidate. -/
theorem close_while_connecting_keeps_state :
    ∃ s, runOps envResolveOnlyHost0 [(1, .connect 0 7000), (1, .close)] (fresh 42) = some s ∧
      s.comm.state_ = .CONNECTING ∧
      s.comm.socket_ = -1 ∧
      deref s.comm = some addrA := by
  refine ⟨_, rfl, ?_⟩
  decide

/-- Apart from a `connect()` that fails at address resolution while the manager is
Connecting, the invariant holds: along every sequence of `connect()`, `process()`,
`sendDone()` and `close()` calls without such a `connect()`, whenever the state is
Connecting the cursor designates a candidate of the address list currently held, and no
call steps from an exhausted cursor or a released list; if moreover `close()` is never
issued while Connecting, the socket handle is not the sentinel whenever the state is
Connecting. -/
theorem connecting_invariant_apart_from_failed_resolution (env : Env) :
    (∀ pid, ConnectingInv (fresh pid).comm) ∧
    (∀ (ops : List (Nat × Op)) (s s' : Sys), Admissible env ops s → CursorInv s.comm →
      runOps env ops s = some s' → CursorInv s'.comm) ∧
    (∀ (ops : List (Nat × Op)) (s s' : Sys), Admissible env ops s →
      NoCloseWhileConnecting env ops s →
      ConnectingInv s.comm → runOps env ops s = some s' → ConnectingInv s'.comm) ∧
    (∀ (fuel : Nat) (op : Op) (s s' : Sys), CursorInv s.comm →
      step env fuel op s ≠ .undefinedBehaviour s') := by
  refine ⟨?_, ?_, ?_, ?_⟩
  · intro pid hc
    cases hc
  · intro ops
    induction ops with
    | nil =>
      intro s s' _ hinv h
      simp only [runOps, Option.some.injEq] at h
      rw [← h]
      exact hinv
    | cons fo rest ih =>
      intro s s' hadm hinv h
      obtain ⟨fuel, op⟩ := fo
      obtain ⟨hok, hnext⟩ := hadm
      simp only [runOps] at h
      cases ha : (step env fuel op s).after with
      | none => rw [ha] at h; cases h
      | some s1 =>
        rw [ha] at h
        exact ih s1 s' (hnext s1 ha) (step_cursorInv env fuel op s s1 hok hinv ha) h
  · intro ops
    induction ops with
    | nil =>
      intro s s' _ _ hinv h
      simp only [runOps, Option.some.injEq] at h
      rw [← h]
      exact hinv
    | cons fo rest ih =>
      intro s s' hadm hcl hinv h
      obtain ⟨fuel, op⟩ := fo
      obtain ⟨hok, hnext⟩ := hadm
      obtain ⟨hop, hcnext⟩ := hcl
      simp only [runOps] at h
      cases ha : (step env fuel op s).after with
      | none => rw [ha] at h; cases h
      | some s1 =>
        rw [ha] at h
        exact ih s1 s' (hnext s1 ha) (hcnext s1 ha)
          (step_connectingInv env fuel op s s1 hok hop hinv ha) h
  · intro fuel op s s' hinv
    exact step_not_undefined env fuel op s s' hinv

end mpl
